import Mathlib

/-!
Verification development for the Eagle Eye Tree swimlane layout and
live-geometry-update engine.

The definitions below are a shallow embedding of the JavaScript source:
  * `graph.js` (v3.4): `bezierPoint`, `nearestT`, `calculateTreeLayout`,
    the `renderGraph` drag handler, `handleSave`;
  * `database.js`: `savePositions`, `autoGenerateLinks`.

Numbers are modelled by `ℚ` (the code computes with IEEE doubles on
coordinates; all claims are about the ideal arithmetic the code implements,
and every concrete evaluation below stays far away from double rounding
error).  JavaScript arrays become `List`, objects become structures,
`null`/missing fields become `Option`, and `Array.prototype.sort` (stable
since ES2019) becomes a stable insertion sort by the same key.
-/

set_option maxRecDepth 100000

namespace EagleEye

/-! ## Geometry primitives (graph.js lines 246–279) -/

/-- `bezierPoint(t, sx, sy, tx, ty)`: cubic bezier with the restricted
control points P0=(sx,sy), P1=(mx,sy), P2=(mx,ty), P3=(tx,ty),
mx=(sx+tx)/2, evaluated with the Bernstein basis exactly as in source. -/
def bezierPoint (t sx sy tx ty : ℚ) : ℚ × ℚ :=
  let mx := (sx + tx) / 2
  let u := 1 - t
  let uu := u * u
  let uuu := uu * u
  let tt := t * t
  let ttt := tt * t
  (uuu * sx + 3 * uu * t * mx + 3 * u * tt * mx + ttt * tx,
   uuu * sy + 3 * uu * t * sy + 3 * u * tt * ty + ttt * ty)

/-- Squared distance from `(px,py)` to the bezier point at parameter `t`,
i.e. the quantity `dx*dx + dy*dy` computed inside both loops of `nearestT`. -/
def distSq (px py t sx sy tx ty : ℚ) : ℚ :=
  let pt := bezierPoint t sx sy tx ty
  (pt.1 - px) * (pt.1 - px) + (pt.2 - py) * (pt.2 - py)

/-- One iteration of either sampling loop in `nearestT`: keep `(bestT, bestDist)`
unless the candidate parameter is strictly closer. -/
def scanStep (px py sx sy tx ty : ℚ) (st : ℚ × ℚ) (t : ℚ) : ℚ × ℚ :=
  if distSq px py t sx sy tx ty < st.2 then (t, distSq px py t sx sy tx ty) else st

/-- Fold `scanStep` over a list of candidate parameters. -/
def scanFold (px py sx sy tx ty : ℚ) (ts : List ℚ) (st : ℚ × ℚ) : ℚ × ℚ :=
  ts.foldl (scanStep px py sx sy tx ty) st

/-- The coarse pass of `nearestT`: 41 uniform samples `t = i/40`, `i = 0..40`.
In source the state starts at `(0.5, Infinity)`, so the `i = 0` iteration
always updates it; we model that by starting from `(0, dist at 0)` and
folding over `i = 1..40`. -/
def coarseScan (px py sx sy tx ty : ℚ) : ℚ × ℚ :=
  scanFold px py sx sy tx ty
    (((List.range 40).map (fun i => ((i + 1 : ℕ) : ℚ) / 40)))
    (0, distSq px py 0 sx sy tx ty)

/-- The refinement pass: 21 samples of `lo + (hi-lo)*j/20` for
`lo = max 0 (bestT - 0.025)`, `hi = min 1 (bestT + 0.025)`. -/
def refineScan (px py sx sy tx ty : ℚ) (st : ℚ × ℚ) : ℚ × ℚ :=
  let lo := max 0 (st.1 - 1/40)
  let hi := min 1 (st.1 + 1/40)
  scanFold px py sx sy tx ty
    (((List.range 21).map (fun j : ℕ => lo + (hi - lo) * (j : ℚ) / 20))) st

/-- JavaScript's `Math.round`: round half toward positive infinity. -/
def jsRound (q : ℚ) : ℤ := ⌊q + 1/2⌋

/-- `nearestT(px, py, sx, sy, tx, ty)` (graph.js lines 260–279): coarse scan,
refinement scan, then `Math.round(bestT * 1000) / 1000`. -/
def nearestT (px py sx sy tx ty : ℚ) : ℚ :=
  let best := refineScan px py sx sy tx ty (coarseScan px py sx sy tx ty)
  (jsRound (best.1 * 1000) : ℚ) / 1000

/-! ### Scan invariants -/

lemma scanStep_snd_le (px py sx sy tx ty : ℚ) (st : ℚ × ℚ) (t : ℚ) :
    (scanStep px py sx sy tx ty st t).2 ≤ st.2 := by
  unfold scanStep
  split
  · exact le_of_lt (by assumption)
  · exact le_rfl

lemma scanStep_snd_eq (px py sx sy tx ty : ℚ) (st : ℚ × ℚ) (t : ℚ)
    (h : st.2 = distSq px py st.1 sx sy tx ty) :
    (scanStep px py sx sy tx ty st t).2 =
      distSq px py (scanStep px py sx sy tx ty st t).1 sx sy tx ty := by
  unfold scanStep
  split <;> simp [h]

lemma scanStep_fst_cases (px py sx sy tx ty : ℚ) (st : ℚ × ℚ) (t : ℚ) :
    (scanStep px py sx sy tx ty st t).1 = st.1 ∨
      (scanStep px py sx sy tx ty st t).1 = t := by
  unfold scanStep
  split <;> simp

lemma scanFold_snd_le (px py sx sy tx ty : ℚ) (ts : List ℚ) (st : ℚ × ℚ) :
    (scanFold px py sx sy tx ty ts st).2 ≤ st.2 := by
  induction ts generalizing st with
  | nil => simp [scanFold]
  | cons t ts ih =>
      calc (scanFold px py sx sy tx ty (t :: ts) st).2
          ≤ (scanStep px py sx sy tx ty st t).2 := ih _
        _ ≤ st.2 := scanStep_snd_le px py sx sy tx ty st t

lemma scanFold_snd_eq (px py sx sy tx ty : ℚ) (ts : List ℚ) (st : ℚ × ℚ)
    (h : st.2 = distSq px py st.1 sx sy tx ty) :
    (scanFold px py sx sy tx ty ts st).2 =
      distSq px py (scanFold px py sx sy tx ty ts st).1 sx sy tx ty := by
  induction ts generalizing st with
  | nil => simpa [scanFold] using h
  | cons t ts ih => exact ih _ (scanStep_snd_eq px py sx sy tx ty st t h)

lemma scanFold_fst_cases (px py sx sy tx ty : ℚ) (ts : List ℚ) (st : ℚ × ℚ) :
    (scanFold px py sx sy tx ty ts st).1 = st.1 ∨
      (scanFold px py sx sy tx ty ts st).1 ∈ ts := by
  induction ts generalizing st with
  | nil => simp [scanFold]
  | cons t ts ih =>
      rcases ih (scanStep px py sx sy tx ty st t) with h | h
      · rcases scanStep_fst_cases px py sx sy tx ty st t with h2 | h2
        · exact Or.inl (by rw [show scanFold px py sx sy tx ty (t :: ts) st =
            scanFold px py sx sy tx ty ts (scanStep px py sx sy tx ty st t) from rfl, h, h2])
        · exact Or.inr (by
            rw [show scanFold px py sx sy tx ty (t :: ts) st =
              scanFold px py sx sy tx ty ts (scanStep px py sx sy tx ty st t) from rfl, h, h2]
            exact List.mem_cons_self t ts)
      · exact Or.inr (List.mem_cons_of_mem t h)

lemma scanFold_fst_bounds (px py sx sy tx ty : ℚ) (ts : List ℚ) (st : ℚ × ℚ)
    (h0 : 0 ≤ st.1) (h1 : st.1 ≤ 1) (hts : ∀ t ∈ ts, 0 ≤ t ∧ t ≤ 1) :
    0 ≤ (scanFold px py sx sy tx ty ts st).1 ∧ (scanFold px py sx sy tx ty ts st).1 ≤ 1 := by
  rcases scanFold_fst_cases px py sx sy tx ty ts st with h | h
  · rw [h]; exact ⟨h0, h1⟩
  · exact hts _ h

lemma coarseScan_fst_bounds (px py sx sy tx ty : ℚ) :
    0 ≤ (coarseScan px py sx sy tx ty).1 ∧ (coarseScan px py sx sy tx ty).1 ≤ 1 := by
  unfold coarseScan
  refine scanFold_fst_bounds _ _ _ _ _ _ _ _ le_rfl (by norm_num) ?_
  intro t ht
  obtain ⟨i, hi, hv⟩ := List.mem_map.1 ht
  rw [List.mem_range] at hi
  subst hv
  constructor
  · positivity
  · rw [div_le_one (by norm_num)]
    have hi39 : i ≤ 39 := by omega
    have : (i : ℚ) ≤ 39 := by exact_mod_cast hi39
    push_cast
    linarith

lemma coarseScan_snd_eq (px py sx sy tx ty : ℚ) :
    (coarseScan px py sx sy tx ty).2 =
      distSq px py (coarseScan px py sx sy tx ty).1 sx sy tx ty :=
  scanFold_snd_eq px py sx sy tx ty _ _ rfl

lemma refineScan_fst_bounds (px py sx sy tx ty : ℚ) (st : ℚ × ℚ)
    (h0 : 0 ≤ st.1) (h1 : st.1 ≤ 1) :
    0 ≤ (refineScan px py sx sy tx ty st).1 ∧ (refineScan px py sx sy tx ty st).1 ≤ 1 := by
  have hlo0 : (0 : ℚ) ≤ max 0 (st.1 - 1/40) := le_max_left _ _
  have hhi1 : min 1 (st.1 + 1/40) ≤ 1 := min_le_left _ _
  have hlohi : max 0 (st.1 - 1/40) ≤ min 1 (st.1 + 1/40) := by
    apply max_le
    · exact le_min (by norm_num) (by linarith)
    · exact le_min (by linarith) (by linarith)
  unfold refineScan
  refine scanFold_fst_bounds _ _ _ _ _ _ _ _ h0 h1 ?_
  intro t ht
  obtain ⟨j, hj, hv⟩ := List.mem_map.1 ht
  rw [List.mem_range] at hj
  subst hv
  have hj20 : (j : ℚ) ≤ 20 := by exact_mod_cast Nat.le_of_lt_succ hj
  have hj0 : (0 : ℚ) ≤ (j : ℚ) := Nat.cast_nonneg j
  constructor
  · have : 0 ≤ (min 1 (st.1 + 1/40) - max 0 (st.1 - 1/40)) * (j : ℚ) / 20 := by
      apply div_nonneg _ (by norm_num)
      exact mul_nonneg (by linarith) hj0
    linarith
  · have hstep : (min 1 (st.1 + 1/40) - max 0 (st.1 - 1/40)) * (j : ℚ) / 20 ≤
        min 1 (st.1 + 1/40) - max 0 (st.1 - 1/40) := by
      rw [div_le_iff₀ (by norm_num : (0:ℚ) < 20)]
      nlinarith [mul_nonneg (sub_nonneg.2 hlohi) (sub_nonneg.2 hj20)]
    linarith

lemma refineScan_snd_le (px py sx sy tx ty : ℚ) (st : ℚ × ℚ) :
    (refineScan px py sx sy tx ty st).2 ≤ st.2 :=
  scanFold_snd_le px py sx sy tx ty _ _

lemma refineScan_snd_eq (px py sx sy tx ty : ℚ) (st : ℚ × ℚ)
    (h : st.2 = distSq px py st.1 sx sy tx ty) :
    (refineScan px py sx sy tx ty st).2 =
      distSq px py (refineScan px py sx sy tx ty st).1 sx sy tx ty :=
  scanFold_snd_eq px py sx sy tx ty _ _ h

/-- C5 (amended): `nearestT` always returns a value in `[0,1]` that is an
integer multiple of `1/1000` (three decimal digits), and the refinement pass
itself is monotone: the refined parameter (before the final rounding) is never
farther from the query point than the best point of the coarse 40-subdivision
pass.  The original claim asserted this monotonicity for the *returned*
(rounded) parameter, which is false: rounding can move the refined parameter
by up to `1/2000` and past the coarse best (see the counterexample). -/
theorem C5_nearestT_range_and_monotone_refine (px py sx sy tx ty : ℚ) :
    0 ≤ nearestT px py sx sy tx ty ∧
    nearestT px py sx sy tx ty ≤ 1 ∧
    (∃ k : ℤ, nearestT px py sx sy tx ty = (k : ℚ) / 1000) ∧
    (refineScan px py sx sy tx ty (coarseScan px py sx sy tx ty)).2 ≤
      (coarseScan px py sx sy tx ty).2 ∧
    distSq px py (refineScan px py sx sy tx ty (coarseScan px py sx sy tx ty)).1 sx sy tx ty ≤
      distSq px py (coarseScan px py sx sy tx ty).1 sx sy tx ty := by
  obtain ⟨hr0, hr1⟩ := refineScan_fst_bounds px py sx sy tx ty (coarseScan px py sx sy tx ty)
    (coarseScan_fst_bounds px py sx sy tx ty).1 (coarseScan_fst_bounds px py sx sy tx ty).2
  set r := refineScan px py sx sy tx ty (coarseScan px py sx sy tx ty) with hrdef
  have hround0 : (0 : ℤ) ≤ jsRound (r.1 * 1000) := by
    rw [jsRound]
    rw [Int.le_floor]
    push_cast
    nlinarith
  have hround1 : jsRound (r.1 * 1000) ≤ 1000 := by
    rw [jsRound]
    have : (⌊r.1 * 1000 + 1/2⌋ : ℤ) < 1001 := by
      rw [Int.floor_lt]
      push_cast
      nlinarith
    omega
  refine ⟨?_, ?_, ⟨jsRound (r.1 * 1000), rfl⟩, refineScan_snd_le px py sx sy tx ty _, ?_⟩
  · show 0 ≤ (jsRound (r.1 * 1000) : ℚ) / 1000
    apply div_nonneg _ (by norm_num)
    exact_mod_cast hround0
  · show (jsRound (r.1 * 1000) : ℚ) / 1000 ≤ 1
    rw [div_le_one (by norm_num)]
    exact_mod_cast hround1
  · calc distSq px py r.1 sx sy tx ty
        = r.2 := (refineScan_snd_eq px py sx sy tx ty _
            (coarseScan_snd_eq px py sx sy tx ty)).symm
      _ ≤ (coarseScan px py sx sy tx ty).2 := refineScan_snd_le px py sx sy tx ty _
      _ = distSq px py (coarseScan px py sx sy tx ty).1 sx sy tx ty :=
          coarseScan_snd_eq px py sx sy tx ty

/-- C5 counterexample: for the query point `(0.076861312894, 0)` on the
degenerate horizontal curve from `(0,0)` to `(2,0)`, the coarse pass finds
`t = 0.025`, the refinement improves it to `t = 0.0275`, but rounding to three
decimals returns `t = 0.028`, whose curve point is strictly *farther* from the
query point than the coarse-pass best — refuting "the returned parameter's
curve point is never farther from the query point than the best point found by
the coarse 40-subdivision sampling pass". -/
theorem C5_counterexample :
    nearestT (76861312894/1000000000000) 0 0 0 2 0 = 7/250 ∧
    ¬ (distSq (76861312894/1000000000000) 0 (nearestT (76861312894/1000000000000) 0 0 0 2 0)
          0 0 2 0 ≤
        (coarseScan (76861312894/1000000000000) 0 0 0 2 0).2) := by
  constructor
  · with_unfolding_all decide
  · with_unfolding_all decide

/-! ## C10: convexity of the restricted bezier -/

/-- C10: for `t ∈ [0,1]` the restricted bezier point is a convex combination of
the endpoints coordinate-wise, hence lies inside the endpoints' bounding box;
and it hits the source exactly at `t = 0` and the target exactly at `t = 1`. -/
theorem C10_bezierPoint_bounding_box (t sx sy tx ty : ℚ) (h0 : 0 ≤ t) (h1 : t ≤ 1) :
    min sx tx ≤ (bezierPoint t sx sy tx ty).1 ∧
    (bezierPoint t sx sy tx ty).1 ≤ max sx tx ∧
    min sy ty ≤ (bezierPoint t sx sy tx ty).2 ∧
    (bezierPoint t sx sy tx ty).2 ≤ max sy ty ∧
    bezierPoint 0 sx sy tx ty = (sx, sy) ∧
    bezierPoint 1 sx sy tx ty = (tx, ty) := by
  have hu : (0 : ℚ) ≤ 1 - t := by linarith
  have hx : (bezierPoint t sx sy tx ty).1 =
      ((1-t)^3 + 3*(1-t)^2*t/2 + 3*(1-t)*t^2/2) * sx
        + (3*(1-t)^2*t/2 + 3*(1-t)*t^2/2 + t^3) * tx := by
    simp only [bezierPoint]
    ring
  have hy : (bezierPoint t sx sy tx ty).2 =
      ((1-t)^3 + 3*(1-t)^2*t) * sy + (3*(1-t)*t^2 + t^3) * ty := by
    simp only [bezierPoint]
    ring
  have hax : (0:ℚ) ≤ (1-t)^3 + 3*(1-t)^2*t/2 + 3*(1-t)*t^2/2 := by
    nlinarith [pow_nonneg hu 3, mul_nonneg (mul_nonneg hu hu) h0,
      mul_nonneg (mul_nonneg h0 h0) hu]
  have hbx : (0:ℚ) ≤ 3*(1-t)^2*t/2 + 3*(1-t)*t^2/2 + t^3 := by
    nlinarith [pow_nonneg h0 3, mul_nonneg (mul_nonneg hu hu) h0,
      mul_nonneg (mul_nonneg h0 h0) hu]
  have habx : ((1-t)^3 + 3*(1-t)^2*t/2 + 3*(1-t)*t^2/2)
      + (3*(1-t)^2*t/2 + 3*(1-t)*t^2/2 + t^3) = 1 := by ring
  have hay : (0:ℚ) ≤ (1-t)^3 + 3*(1-t)^2*t := by
    nlinarith [pow_nonneg hu 3, mul_nonneg (mul_nonneg hu hu) h0]
  have hby : (0:ℚ) ≤ 3*(1-t)*t^2 + t^3 := by
    nlinarith [pow_nonneg h0 3, mul_nonneg (mul_nonneg h0 h0) hu]
  have haby : ((1-t)^3 + 3*(1-t)^2*t) + (3*(1-t)*t^2 + t^3) = 1 := by ring
  refine ⟨?_, ?_, ?_, ?_, ?_, ?_⟩
  · rw [hx]
    nlinarith [mul_nonneg hax (sub_nonneg.2 (min_le_left sx tx)),
      mul_nonneg hbx (sub_nonneg.2 (min_le_right sx tx))]
  · rw [hx]
    nlinarith [mul_nonneg hax (sub_nonneg.2 (le_max_left sx tx)),
      mul_nonneg hbx (sub_nonneg.2 (le_max_right sx tx))]
  · rw [hy]
    nlinarith [mul_nonneg hay (sub_nonneg.2 (min_le_left sy ty)),
      mul_nonneg hby (sub_nonneg.2 (min_le_right sy ty))]
  · rw [hy]
    nlinarith [mul_nonneg hay (sub_nonneg.2 (le_max_left sy ty)),
      mul_nonneg hby (sub_nonneg.2 (le_max_right sy ty))]
  · simp only [bezierPoint]
    norm_num
  · simp only [bezierPoint]
    norm_num

/-- Witness for C10 at `t = 1/2`, source `(0, 0)`, target `(2, 4)`. -/
theorem C10_witness :
    (0:ℚ) ≤ 1/2 ∧ (1/2:ℚ) ≤ 1 ∧
    (min (0:ℚ) 2 ≤ (bezierPoint (1/2) 0 0 2 4).1 ∧
     (bezierPoint (1/2) 0 0 2 4).1 ≤ max (0:ℚ) 2 ∧
     min (0:ℚ) 4 ≤ (bezierPoint (1/2) 0 0 2 4).2 ∧
     (bezierPoint (1/2) 0 0 2 4).2 ≤ max (0:ℚ) 4 ∧
     bezierPoint 0 0 0 2 4 = ((0:ℚ), (0:ℚ)) ∧
     bezierPoint 1 0 0 2 4 = ((2:ℚ), (4:ℚ))) :=
  ⟨by norm_num, by norm_num,
   C10_bezierPoint_bounding_box (1/2) 0 0 2 4 (by norm_num) (by norm_num)⟩

/-! ## Data model

Entity records as loaded from the store (`database.js`, `state.js`).
Display-only attributes that no claim touches (colors, icons, fonts, ECN
styling, selection highlighting) are omitted; they are constants with respect
to every operation modelled here. -/

structure Group where
  id : ℕ
  sort_order : Option ℚ
  label : String
deriving DecidableEq

structure Step where
  id : ℕ
  group_id : ℕ
  sort_order : Option ℚ
  label : String
  y : Option ℚ
  seq_tag : Option String
  label_position : Option ℚ
deriving DecidableEq

structure Part where
  id : ℕ
  step_id : ℕ
  sort_order : Option ℚ
  pn : String
  qty : ℤ
deriving DecidableEq

structure Fastener where
  id : ℕ
  step_id : ℕ
  sort_order : Option ℚ
  pn : Option String
  qty : ℤ
  loctite : Option String
  torque : Option String
deriving DecidableEq

/-- `x.sort_order || 0`: a missing sort key counts as `0` (in JavaScript the
value `0` is also falsy, but `0 || 0 = 0` so `getD 0` is exact). -/
def groupKey (g : Group) : ℚ := g.sort_order.getD 0

def stepKey (s : Step) : ℚ := s.sort_order.getD 0

def partKey (p : Part) : ℚ := p.sort_order.getD 0

/-! ## Stable sort

`Array.prototype.sort` with the comparator `(a, b) => key(a) - key(b)` is
required to be stable by the ECMAScript specification (ES2019), so equal keys
keep their relative input order.  We model it by a stable insertion sort. -/

def insertByKey {α : Type} (key : α → ℚ) (x : α) : List α → List α
  | [] => [x]
  | y :: ys => if key x ≤ key y then x :: y :: ys else y :: insertByKey key x ys

def stableSortByKey {α : Type} (key : α → ℚ) : List α → List α
  | [] => []
  | x :: xs => insertByKey key x (stableSortByKey key xs)

lemma insertByKey_perm {α : Type} (key : α → ℚ) (x : α) (l : List α) :
    List.Perm (insertByKey key x l) (x :: l) := by
  induction l with
  | nil => simp [insertByKey]
  | cons y ys ih =>
      rw [insertByKey]
      split
      · exact List.Perm.refl _
      · exact (List.Perm.cons y ih).trans (List.Perm.swap x y ys)

lemma stableSortByKey_perm {α : Type} (key : α → ℚ) (l : List α) :
    List.Perm (stableSortByKey key l) l := by
  induction l with
  | nil => exact List.Perm.refl _
  | cons x xs ih =>
      rw [stableSortByKey]
      exact (insertByKey_perm key x _).trans (List.Perm.cons x ih)

lemma insertByKey_sorted {α : Type} (key : α → ℚ) (x : α) (l : List α)
    (h : l.Pairwise (fun a b => key a ≤ key b)) :
    (insertByKey key x l).Pairwise (fun a b => key a ≤ key b) := by
  induction l with
  | nil => simp [insertByKey]
  | cons y ys ih =>
      rcases List.pairwise_cons.1 h with ⟨hy, hys⟩
      rw [insertByKey]
      by_cases hxy : key x ≤ key y
      · rw [if_pos hxy]
        refine List.pairwise_cons.2 ⟨?_, h⟩
        intro b hb
        rcases List.mem_cons.1 hb with rfl | hb
        · exact hxy
        · exact le_trans hxy (hy b hb)
      · rw [if_neg hxy]
        refine List.pairwise_cons.2 ⟨?_, ih hys⟩
        intro b hb
        have hmem := (insertByKey_perm key x ys).mem_iff.1 hb
        rcases List.mem_cons.1 hmem with rfl | hb2
        · exact le_of_lt (lt_of_not_le hxy)
        · exact hy b hb2

lemma stableSortByKey_sorted {α : Type} (key : α → ℚ) (l : List α) :
    (stableSortByKey key l).Pairwise (fun a b => key a ≤ key b) := by
  induction l with
  | nil => simp [stableSortByKey]
  | cons x xs ih => exact insertByKey_sorted key x _ ih

lemma filter_insertByKey {α : Type} (key : α → ℚ) (k : ℚ) (x : α) (l : List α) :
    (insertByKey key x l).filter (fun z => key z == k) =
      if key x == k then x :: l.filter (fun z => key z == k)
      else l.filter (fun z => key z == k) := by
  induction l with
  | nil =>
      rw [insertByKey]
      by_cases hk : key x == k
      · simp [List.filter, hk]
      · simp [List.filter, hk]
  | cons y ys ih =>
      rw [insertByKey]
      by_cases hxy : key x ≤ key y
      · rw [if_pos hxy]
        by_cases hk : key x == k
        · simp [List.filter, hk]
        · simp [List.filter, hk]
      · rw [if_neg hxy]
        have hyx : key y < key x := lt_of_not_le hxy
        by_cases hk : key x == k
        · have hyk : ¬ (key y == k) := by
            simp only [beq_iff_eq] at hk ⊢
            intro hcon
            rw [hk] at hyx
            exact absurd hcon (ne_of_lt hyx)
          simp [List.filter, hyk, ih, hk]
        · by_cases hyk : key y == k
          · simp [List.filter, hyk, ih, hk]
          · simp [List.filter, hyk, ih, hk]

/-- Stability: the elements with any given key value appear in the sorted list
exactly in their input order. -/
lemma stableSortByKey_stable {α : Type} (key : α → ℚ) (k : ℚ) (l : List α) :
    (stableSortByKey key l).filter (fun z => key z == k) =
      l.filter (fun z => key z == k) := by
  induction l with
  | nil => rfl
  | cons x xs ih =>
      rw [stableSortByKey, filter_insertByKey]
      by_cases hk : key x == k
      · simp [List.filter, hk, ih]
      · simp [List.filter, hk, ih]

/-! ## Persistence model (`database.js`)

The external store is modelled by an oracle `fails : ℕ → Bool` telling which
step-row updates the store rejects. -/

/-- `savePositions(posMap)` (database.js 80–87): iterate the entries of the
position map, issue one row update each, and count the rows whose update
reported no error. -/
def savePositions (fails : ℕ → Bool) (posMap : List (ℕ × ℚ × ℚ)) : ℕ :=
  posMap.foldl (fun count e => if fails e.1 then count else count + 1) 0

/-- `handleSave` (graph.js 903–909): call `savePositions`, then
`state.setLayoutDirty(false)` — unconditionally — and report the count.
The first component of the result is the layout-dirty flag after the save,
the second the count returned by `savePositions`. -/
def handleSave (fails : ℕ → Bool) (_dirtyBefore : Bool) (posMap : List (ℕ × ℚ × ℚ)) :
    Bool × ℕ :=
  let count := savePositions fails posMap
  (false, count)

/-- A step-to-step relationship row as inserted by `autoGenerateLinks`. -/
structure StepLink where
  assembly_id : ℕ
  parent_step_id : ℕ
  child_step_id : ℕ
deriving DecidableEq

/-- The steps of one group, sorted by sort key (used by both
`autoGenerateLinks` and `calculateTreeLayout`). -/
def gStepsSorted (steps : List Step) (gid : ℕ) : List Step :=
  stableSortByKey stepKey (steps.filter (fun s => s.group_id == gid))

/-- The in-group chain candidates `(gSteps[i].id, gSteps[i+1].id)`. -/
def chainCandidates (gSteps : List Step) : List (ℕ × ℕ) :=
  (gSteps.zip gSteps.tail).map (fun p => (p.1.id, p.2.id))

/-- `seen.add(key(a,b))` / `links.push(...)`: push a candidate pair unless its
key was already seen.  (JavaScript keys pairs by the string `` `${a}-${b}` ``,
which for the store's natural-number ids is injective, so we key by the pair
itself.)  State: (links so far, seen keys so far). -/
def pushLink (assemblyId : ℕ) (st : List StepLink × List (ℕ × ℕ)) (pc : ℕ × ℕ) :
    List StepLink × List (ℕ × ℕ) :=
  if pc ∈ st.2 then st
  else (st.1 ++ [⟨assemblyId, pc.1, pc.2⟩], st.2 ++ [pc])

/-- The candidate pairs contributed by the group at index `gi`: its internal
chain, then (when a next group exists and both groups are nonempty) the bridge
from this group's last step to the next group's first step.  `sortedGroups[gi+1]`
is accessed via `get?`: it is `some` exactly when `gi < sortedGroups.length - 1`,
the source's guard. -/
def groupCandidates (steps : List Step) (sortedGroups : List Group) (gi : ℕ) (grp : Group) :
    List (ℕ × ℕ) :=
  let gSteps := gStepsSorted steps grp.id
  chainCandidates gSteps ++
    (match sortedGroups[gi + 1]? with
     | some nextGrp =>
        match gSteps.getLast?, (gStepsSorted steps nextGrp.id).head? with
        | some lastStep, some firstNext => [(lastStep.id, firstNext.id)]
        | _, _ => []
     | none => [])

/-- `autoGenerateLinks(assemblyId, groups, steps, existingLinks)`
(database.js 95–140). -/
def autoGenerateLinks (assemblyId : ℕ) (groups : List Group) (steps : List Step)
    (existingLinks : List StepLink) : List StepLink :=
  if existingLinks.length > 0 then []
  else
    let sortedGroups := stableSortByKey groupKey groups
    (sortedGroups.enum.foldl
      (fun st gig => (groupCandidates steps sortedGroups gig.1 gig.2).foldl
        (pushLink assemblyId) st)
      ([], [])).1

/-- C1 (code bug): `handleSave` clears the layout-dirty flag *unconditionally*
after the bulk save, even when `savePositions` reports that fewer rows were
written than submitted.  At the failing input (two positions submitted, the
store rejecting the row for step 2) the flag ends up `false` while only 1 of 2
rows was saved, and in fact the flag is `false` after every `handleSave`,
whatever the store does — contradicting the claim that `layoutDirty = false`
implies all rows were saved without error. -/
theorem C1_handleSave_clears_dirty_despite_partial_failure :
    handleSave (fun k => k == 2) true [(1, (10, 20)), (2, (30, 40))] = (false, 1) ∧
    savePositions (fun k => k == 2) [(1, (10, 20)), (2, (30, 40))] <
      ([(1, ((10:ℚ), (20:ℚ))), (2, (30, 40))] : List (ℕ × ℚ × ℚ)).length ∧
    (∀ (fails : ℕ → Bool) (d : Bool) (pm : List (ℕ × ℚ × ℚ)),
      (handleSave fails d pm).1 = false) :=
  ⟨rfl, by norm_num [savePositions, List.foldl], fun _ _ _ => rfl⟩

/-! ### C9 machinery: the dedup fold -/

/-- The (parent, child) pair carried by a generated link. -/
def linkPair (lk : StepLink) : ℕ × ℕ := (lk.parent_step_id, lk.child_step_id)

lemma foldl_pushLink_snd_mem (aid : ℕ) (cs : List (ℕ × ℕ)) (st : List StepLink × List (ℕ × ℕ))
    (x : ℕ × ℕ) :
    x ∈ (cs.foldl (pushLink aid) st).2 ↔ x ∈ st.2 ∨ x ∈ cs := by
  induction cs generalizing st with
  | nil => simp
  | cons c cs ih =>
      rw [List.foldl_cons, ih]
      unfold pushLink
      by_cases hc : c ∈ st.2
      · rw [if_pos hc]
        constructor
        · rintro (h | h)
          · exact Or.inl h
          · exact Or.inr (List.mem_cons_of_mem c h)
        · rintro (h | h)
          · exact Or.inl h
          · rcases List.mem_cons.1 h with rfl | h
            · exact Or.inl hc
            · exact Or.inr h
      · rw [if_neg hc]
        simp only [List.mem_append, List.mem_singleton, List.mem_cons]
        tauto

lemma foldl_pushLink_snd_nodup (aid : ℕ) (cs : List (ℕ × ℕ))
    (st : List StepLink × List (ℕ × ℕ)) (h : st.2.Nodup) :
    (cs.foldl (pushLink aid) st).2.Nodup := by
  induction cs generalizing st with
  | nil => exact h
  | cons c cs ih =>
      rw [List.foldl_cons]
      apply ih
      unfold pushLink
      by_cases hc : c ∈ st.2
      · rw [if_pos hc]; exact h
      · rw [if_neg hc]
        refine h.append (List.nodup_singleton c) ?_
        simp only [List.disjoint_singleton]
        exact hc

lemma foldl_pushLink_pairs (aid : ℕ) (cs : List (ℕ × ℕ))
    (st : List StepLink × List (ℕ × ℕ)) (h : st.2 = st.1.map linkPair) :
    (cs.foldl (pushLink aid) st).2 = (cs.foldl (pushLink aid) st).1.map linkPair := by
  induction cs generalizing st with
  | nil => exact h
  | cons c cs ih =>
      rw [List.foldl_cons]
      apply ih
      unfold pushLink
      by_cases hc : c ∈ st.2
      · rw [if_pos hc]; exact h
      · rw [if_neg hc]
        simp [linkPair, h]

lemma foldl_pushLink_aid (aid : ℕ) (cs : List (ℕ × ℕ))
    (st : List StepLink × List (ℕ × ℕ)) (h : ∀ lk ∈ st.1, lk.assembly_id = aid) :
    ∀ lk ∈ (cs.foldl (pushLink aid) st).1, lk.assembly_id = aid := by
  induction cs generalizing st with
  | nil => exact h
  | cons c cs ih =>
      rw [List.foldl_cons]
      apply ih
      unfold pushLink
      by_cases hc : c ∈ st.2
      · rw [if_pos hc]; exact h
      · rw [if_neg hc]
        intro lk hlk
        rcases List.mem_append.1 hlk with hlk | hlk
        · exact h lk hlk
        · rw [List.mem_singleton.1 hlk]

/-! The nested fold over groups, reduced to the flat lemmas. -/

lemma groupsFold_snd_mem (aid : ℕ) (steps : List Step) (sg : List Group)
    (gl : List (ℕ × Group)) (st : List StepLink × List (ℕ × ℕ)) (x : ℕ × ℕ) :
    x ∈ (gl.foldl
        (fun st gig => (groupCandidates steps sg gig.1 gig.2).foldl (pushLink aid) st) st).2 ↔
      x ∈ st.2 ∨ ∃ gig ∈ gl, x ∈ groupCandidates steps sg gig.1 gig.2 := by
  induction gl generalizing st with
  | nil => simp
  | cons g gl ih =>
      rw [List.foldl_cons, ih, foldl_pushLink_snd_mem]
      simp only [List.mem_cons]
      constructor
      · rintro ((h | h) | ⟨gig, hmem, hx⟩)
        · exact Or.inl h
        · exact Or.inr ⟨g, Or.inl rfl, h⟩
        · exact Or.inr ⟨gig, Or.inr hmem, hx⟩
      · rintro (h | ⟨gig, hmem | hmem, hx⟩)
        · exact Or.inl (Or.inl h)
        · exact Or.inl (Or.inr (hmem ▸ hx))
        · exact Or.inr ⟨gig, hmem, hx⟩

lemma groupsFold_snd_nodup (aid : ℕ) (steps : List Step) (sg : List Group)
    (gl : List (ℕ × Group)) (st : List StepLink × List (ℕ × ℕ)) (h : st.2.Nodup) :
    (gl.foldl
      (fun st gig => (groupCandidates steps sg gig.1 gig.2).foldl (pushLink aid) st) st).2.Nodup := by
  induction gl generalizing st with
  | nil => exact h
  | cons g gl ih =>
      rw [List.foldl_cons]
      exact ih _ (foldl_pushLink_snd_nodup aid _ st h)

lemma groupsFold_pairs (aid : ℕ) (steps : List Step) (sg : List Group)
    (gl : List (ℕ × Group)) (st : List StepLink × List (ℕ × ℕ)) (h : st.2 = st.1.map linkPair) :
    (gl.foldl
        (fun st gig => (groupCandidates steps sg gig.1 gig.2).foldl (pushLink aid) st) st).2 =
      (gl.foldl
        (fun st gig => (groupCandidates steps sg gig.1 gig.2).foldl (pushLink aid) st) st).1.map
        linkPair := by
  induction gl generalizing st with
  | nil => exact h
  | cons g gl ih =>
      rw [List.foldl_cons]
      exact ih _ (foldl_pushLink_pairs aid _ st h)

lemma groupsFold_aid (aid : ℕ) (steps : List Step) (sg : List Group)
    (gl : List (ℕ × Group)) (st : List StepLink × List (ℕ × ℕ))
    (h : ∀ lk ∈ st.1, lk.assembly_id = aid) :
    ∀ lk ∈ (gl.foldl
        (fun st gig => (groupCandidates steps sg gig.1 gig.2).foldl (pushLink aid) st) st).1,
      lk.assembly_id = aid := by
  induction gl generalizing st with
  | nil => exact h
  | cons g gl ih =>
      rw [List.foldl_cons]
      exact ih _ (foldl_pushLink_aid aid _ st h)

/-- Adjacent pairs of a list are exactly the members of `l.zip l.tail`. -/
lemma mem_zip_tail_iff {α : Type} (l : List α) (a b : α) :
    (a, b) ∈ l.zip l.tail ↔ ∃ i, l[i]? = some a ∧ l[i+1]? = some b := by
  induction l with
  | nil => simp
  | cons x xs ih =>
      cases xs with
      | nil => simp
      | cons y rest =>
          simp only [List.tail_cons, List.zip_cons_cons, List.mem_cons]
          have hih := ih
          rw [List.tail_cons] at hih
          constructor
          · rintro (h | h)
            · refine ⟨0, ?_, ?_⟩ <;> simp_all
            · obtain ⟨i, h1, h2⟩ := hih.1 h
              exact ⟨i + 1, by simpa using h1, by simpa using h2⟩
          · rintro ⟨i, h1, h2⟩
            cases i with
            | zero =>
                left
                have h1' : x = a := by simpa using h1
                have h2' : y = b := by simpa using h2
                rw [h1', h2']
            | succ i =>
                right
                refine hih.2 ⟨i, ?_, ?_⟩
                · simpa using h1
                · simpa using h2

/-- The set of links described by claim C9: for each group (in sort-key
order) the chain `step[i] → step[i+1]` of its steps in sort-key order, plus a
bridge from each group's last step to the next group's first step, the bridge
skipped when either group has no steps. -/
def ChainOrBridgePair (groups : List Group) (steps : List Step) (p c : ℕ) : Prop :=
  (∃ grp ∈ stableSortByKey groupKey groups,
    (p, c) ∈ chainCandidates (gStepsSorted steps grp.id)) ∨
  (∃ gp ∈ (stableSortByKey groupKey groups).zip (stableSortByKey groupKey groups).tail,
    ∃ lastStep ∈ (gStepsSorted steps gp.1.id).getLast?,
    ∃ firstNext ∈ (gStepsSorted steps gp.2.id).head?,
      p = lastStep.id ∧ c = firstNext.id)

lemma mem_groupCandidates_iff (steps : List Step) (sg : List Group) (gi : ℕ) (grp : Group)
    (p c : ℕ) :
    (p, c) ∈ groupCandidates steps sg gi grp ↔
      ((p, c) ∈ chainCandidates (gStepsSorted steps grp.id) ∨
       ∃ next, sg[gi + 1]? = some next ∧
        ∃ lastStep ∈ (gStepsSorted steps grp.id).getLast?,
        ∃ firstNext ∈ (gStepsSorted steps next.id).head?,
          p = lastStep.id ∧ c = firstNext.id) := by
  unfold groupCandidates
  rw [List.mem_append]
  apply or_congr_right
  cases hn : sg[gi + 1]? with
  | none => simp
  | some next =>
      simp only [Option.some.injEq]
      cases hl : (gStepsSorted steps grp.id).getLast? with
      | none => simp [hl]
      | some lastStep =>
          cases hh : (gStepsSorted steps next.id).head? with
          | none => simp [hl, hh]
          | some firstNext =>
              simp only [hl, hh, List.mem_singleton, Prod.mk.injEq]
              constructor
              · rintro ⟨h1, h2⟩
                refine ⟨next, rfl, lastStep, ?_, firstNext, ?_, h1, h2⟩
                · simp
                · rw [Option.mem_def]
                  exact hh
              · rintro ⟨next2, hnext2, ls, hls, fn, hfn, h1, h2⟩
                rcases hnext2
                simp only [Option.mem_def, Option.some.injEq] at hls hfn
                rw [hh, Option.some.injEq] at hfn
                constructor
                · rw [h1, hls]
                · rw [h2, ← hfn]

/-- C9: `autoGenerateLinks` returns the empty list whenever any relationships
already exist; otherwise it produces links for the given assembly whose
(parent, child) pairs are pairwise distinct and are exactly the in-group chain
pairs plus the between-group bridge pairs described by the claim. -/
theorem C9_autoGenerateLinks_exact (aid : ℕ) (groups : List Group) (steps : List Step)
    (existing : List StepLink) :
    (existing ≠ [] → autoGenerateLinks aid groups steps existing = []) ∧
    ((autoGenerateLinks aid groups steps existing).map linkPair).Nodup ∧
    (existing = [] →
      (∀ lk ∈ autoGenerateLinks aid groups steps existing, lk.assembly_id = aid) ∧
      (∀ p c : ℕ, (p, c) ∈ (autoGenerateLinks aid groups steps existing).map linkPair ↔
        ChainOrBridgePair groups steps p c)) := by
  by_cases hex : existing = []
  · subst hex
    have hunfold : autoGenerateLinks aid groups steps [] =
        ((stableSortByKey groupKey groups).enum.foldl
          (fun st gig =>
            (groupCandidates steps (stableSortByKey groupKey groups) gig.1 gig.2).foldl
              (pushLink aid) st)
          ([], [])).1 := by
      unfold autoGenerateLinks
      simp
    have hpairs := groupsFold_pairs aid steps (stableSortByKey groupKey groups)
      (stableSortByKey groupKey groups).enum ([], []) rfl
    refine ⟨fun hne => absurd rfl hne, ?_, fun _ => ⟨?_, ?_⟩⟩
    · rw [hunfold, ← hpairs]
      exact groupsFold_snd_nodup aid steps _ _ _ (List.nodup_nil)
    · rw [hunfold]
      exact groupsFold_aid aid steps _ _ _ (by intro lk h; simp at h)
    · intro p c
      rw [hunfold, ← hpairs, groupsFold_snd_mem]
      simp only [List.not_mem_nil, false_or]
      constructor
      · rintro ⟨⟨gi, grp⟩, hmem, hx⟩
        rw [List.mk_mem_enum_iff_getElem?] at hmem
        rcases (mem_groupCandidates_iff steps _ gi grp p c).1 hx with hchain | hbridge
        · exact Or.inl ⟨grp, List.getElem?_mem hmem, hchain⟩
        · obtain ⟨next, hnext, ls, hls, fn, hfn, h1, h2⟩ := hbridge
          refine Or.inr ⟨(grp, next), ?_, ls, hls, fn, hfn, h1, h2⟩
          exact (mem_zip_tail_iff _ grp next).2 ⟨gi, hmem, hnext⟩
      · rintro (⟨grp, hmem, hchain⟩ | ⟨⟨g1, g2⟩, hmem, ls, hls, fn, hfn, h1, h2⟩)
        · obtain ⟨gi, hgi⟩ := List.mem_iff_get?.1 hmem
          rw [List.get?_eq_getElem?] at hgi
          refine ⟨(gi, grp), ?_, ?_⟩
          · rw [List.mk_mem_enum_iff_getElem?]
            exact hgi
          · exact (mem_groupCandidates_iff steps _ gi grp p c).2 (Or.inl hchain)
        · obtain ⟨gi, hg1, hg2⟩ := (mem_zip_tail_iff _ g1 g2).1 hmem
          refine ⟨(gi, g1), ?_, ?_⟩
          · rw [List.mk_mem_enum_iff_getElem?]
            exact hg1
          · exact (mem_groupCandidates_iff steps _ gi g1 p c).2
              (Or.inr ⟨g2, hg2, ls, hls, fn, hfn, h1, h2⟩)
  · have hlen : existing.length > 0 := List.length_pos.2 hex
    have hempty : autoGenerateLinks aid groups steps existing = [] := by
      unfold autoGenerateLinks
      rw [if_pos hlen]
    refine ⟨fun _ => hempty, ?_, fun h => absurd h hex⟩
    rw [hempty]
    exact List.nodup_nil

/-! ## Swimlane layout (`calculateTreeLayout`, graph.js 285–382)

Node identifiers: the source tags step nodes `'s_' + step.id`, group nodes
`'g_' + grp.id`, and the root `'root'`; for natural-number ids this tagging is
exactly the sum type below. -/

inductive NodeId
  | step (id : ℕ)
  | group (id : ℕ)
  | root
deriving DecidableEq

/-! Constants from `config.js` and the locals of `calculateTreeLayout`. -/

def NODE_WIDTH : ℚ := 150
def NODE_HEIGHT : ℚ := 38
def PART_NODE_WIDTH : ℚ := 120
def PART_NODE_HEIGHT : ℚ := 32
def VERTICAL_GAP : ℚ := 80
def topPad : ℚ := 80
def headerH : ℚ := 40
def swimPadY : ℚ := 30
def swimGap : ℚ := 14
def partZone : ℚ := 170
def stepColX : ℚ := partZone + 50

/-- A visual node of the graph.  Display-only attributes (label text, color,
shape, font, sequence badge, ECN/selection styling, part/fastener counts) are
omitted: they are never read or written by the layout or drag computations the
claims are about. -/
structure Node where
  id : NodeId
  dbId : Option ℕ
  x : ℚ
  y : ℚ
  w : ℚ
  h : ℚ
  groupId : Option ℕ
  isStep : Bool
  isGroup : Bool
  isRoot : Bool
  swimIdx : ℕ
deriving DecidableEq

inductive LinkType
  | stepToGroup
  | groupToRoot
deriving DecidableEq

/-- A relationship record produced by the layout (`allLinks.push` sites).
`labelPos` is `none` for group→root links, mirroring the absent field. -/
structure Link where
  sourceId : NodeId
  targetId : NodeId
  type : LinkType
  stepDbId : Option ℕ
  labelPos : Option ℚ
  fastener_pn : Option String
  qty : ℤ
  loctite : Option String
  torque : Option String
  totalFasteners : ℕ
deriving DecidableEq

structure Swimlane where
  grp : Group
  gi : ℕ
  startY : ℚ
  height : ℚ
  stepCount : ℕ
deriving DecidableEq

structure LayoutAcc where
  allNodes : List Node
  allLinks : List Link
  swimlanes : List Swimlane
  curY : ℚ
deriving DecidableEq

structure LayoutResult where
  nodes : List Node
  links : List Link
  swimlanes : List Swimlane
  sortedGroups : List Group
  stepColX : ℚ
  groupColX : ℚ
  rootColX : ℚ
  dimWidth : ℚ
  dimHeight : ℚ
deriving DecidableEq

/-- The inputs `calculateTreeLayout` reads from module state:
`state.groups/steps/parts/fasts/visibleGroupIds/gap1/gap2`. -/
structure LayoutInput where
  groups : List Group
  steps : List Step
  parts : List Part
  fasts : List Fastener
  visibleGroupIds : Option (List ℕ)
  gap1 : ℚ
  gap2 : ℚ
deriving DecidableEq

/-- `allNodes.find(n => n.id === nid)`. -/
def findNode (nodes : List Node) (nid : NodeId) : Option Node :=
  nodes.find? (fun n => n.id == nid)

/-- `Math.min.apply(null, ys)` over a nonempty array (every call site is
guarded by a nonemptiness check; the `[]` default is never reached). -/
def listMin : List ℚ → ℚ
  | [] => 0
  | x :: xs => xs.foldl min x

def listMax : List ℚ → ℚ
  | [] => 0
  | x :: xs => xs.foldl max x

/-- The step node pushed inside the `gSteps.forEach` (graph.js 314–331). -/
def mkStepNode (grp : Group) (gi : ℕ) (swimStartY : ℚ) (si : ℕ) (s : Step) : Node :=
  { id := .step s.id
    dbId := some s.id
    x := stepColX
    y := s.y.getD (swimStartY + swimPadY + (si : ℚ) * VERTICAL_GAP)
    w := NODE_WIDTH
    h := NODE_HEIGHT
    groupId := some grp.id
    isStep := true
    isGroup := false
    isRoot := false
    swimIdx := gi }

/-- The step→group link pushed per step (graph.js 346–357). -/
def mkStepGroupLink (fasts : List Fastener) (grp : Group) (s : Step) : Link :=
  let sf := fasts.filter (fun f => f.step_id == s.id)
  { sourceId := .step s.id
    targetId := .group grp.id
    type := .stepToGroup
    stepDbId := some s.id
    labelPos := some (s.label_position.getD (1/2))
    fastener_pn := sf.head?.bind Fastener.pn
    qty := (sf.head?.map Fastener.qty).getD 0
    loctite := sf.head?.bind Fastener.loctite
    torque := sf.head?.bind Fastener.torque
    totalFasteners := sf.length }

/-- The group→root link pushed per group (graph.js 358–359). -/
def groupRootLink (grp : Group) : Link :=
  { sourceId := .group grp.id
    targetId := .root
    type := .groupToRoot
    stepDbId := none
    labelPos := none
    fastener_pn := none
    qty := 0
    loctite := none
    torque := none
    totalFasteners := 0 }

/-- The body of `filteredGroups.forEach` (graph.js 305–364), one group per
call, threading `(allNodes, allLinks, swimlanes, curY)`. -/
def layoutFold (steps : List Step) (parts : List Part) (fasts : List Fastener)
    (groupColX : ℚ) (acc : LayoutAcc) (gig : ℕ × Group) : LayoutAcc :=
  let gi := gig.1
  let grp := gig.2
  let gSteps := gStepsSorted steps grp.id
  let numSteps := gSteps.length
  let maxParts := gSteps.foldl
    (fun mx s => max mx (parts.filter (fun p => p.step_id == s.id)).length) 0
  let contentH : ℚ :=
    max ((max (numSteps : ℚ) ((⌈(maxParts : ℚ) * (7/10)⌉ : ℤ) : ℚ)) * VERTICAL_GAP)
      (VERTICAL_GAP * (3/2))
  let swimH := contentH + swimPadY * 2
  let swimStartY := acc.curY
  let stepNodes := gSteps.enum.map (fun sis => mkStepNode grp gi swimStartY sis.1 sis.2)
  let nodes1 := acc.allNodes ++ stepNodes
  let stepYs := gSteps.map (fun s => ((findNode nodes1 (NodeId.step s.id)).map Node.y).getD 0)
  let groupY := if stepYs.isEmpty then swimStartY + swimH / 2
    else (listMin stepYs + listMax stepYs) / 2
  let groupNode : Node :=
    { id := .group grp.id, dbId := none, x := groupColX, y := groupY,
      w := NODE_WIDTH + 20, h := NODE_HEIGHT + 8, groupId := some grp.id,
      isStep := false, isGroup := true, isRoot := false, swimIdx := gi }
  { allNodes := nodes1 ++ [groupNode]
    allLinks := acc.allLinks ++ gSteps.map (mkStepGroupLink fasts grp) ++ [groupRootLink grp]
    swimlanes := acc.swimlanes ++
      [{ grp := grp, gi := gi, startY := swimStartY, height := swimH, stepCount := numSteps }]
    curY := swimStartY + swimH + swimGap }

/-- Sort the groups by sort key, then restrict to the visible set when a
filter is active (graph.js 289–292). -/
def filteredGroupsOf (inp : LayoutInput) : List Group :=
  let sortedGroups := stableSortByKey groupKey inp.groups
  match inp.visibleGroupIds with
  | some vis => sortedGroups.filter (fun g => vis.contains g.id)
  | none => sortedGroups

/-- The accumulator after laying out all (filtered) groups. -/
def layoutAccOf (inp : LayoutInput) : LayoutAcc :=
  (filteredGroupsOf inp).enum.foldl
    (layoutFold inp.steps inp.parts inp.fasts (stepColX + inp.gap1))
    { allNodes := [], allLinks := [], swimlanes := [], curY := topPad + headerH }

/-- The non-null branch of `calculateTreeLayout`: group fold, then the root
node (graph.js 366–381). -/
def layoutCore (inp : LayoutInput) : LayoutResult :=
  let groupColX := stepColX + inp.gap1
  let rootColX := groupColX + inp.gap2
  let acc := layoutAccOf inp
  let groupYs := (acc.allNodes.filter (fun n => n.isGroup)).map Node.y
  let rootY := if groupYs.isEmpty then topPad + headerH
    else (listMin groupYs + listMax groupYs) / 2
  let rootNode : Node :=
    { id := .root, dbId := none, x := rootColX, y := rootY,
      w := NODE_WIDTH + 40, h := NODE_HEIGHT + 16, groupId := none,
      isStep := false, isGroup := false, isRoot := true, swimIdx := 0 }
  { nodes := acc.allNodes ++ [rootNode]
    links := acc.allLinks
    swimlanes := acc.swimlanes
    sortedGroups := filteredGroupsOf inp
    stepColX := stepColX
    groupColX := groupColX
    rootColX := rootColX
    dimWidth := rootColX + 250
    dimHeight := acc.curY + 50 }

/-- `calculateTreeLayout()` (graph.js 285–382). -/
def calculateTreeLayout (inp : LayoutInput) : Option LayoutResult :=
  if inp.groups = [] ∨ inp.steps = [] then none
  else if filteredGroupsOf inp = [] then none
  else some (layoutCore inp)

lemma calculateTreeLayout_some_inv (inp : LayoutInput) (L : LayoutResult)
    (h : calculateTreeLayout inp = some L) :
    L = layoutCore inp ∧ ¬(inp.groups = [] ∨ inp.steps = []) ∧ filteredGroupsOf inp ≠ [] := by
  unfold calculateTreeLayout at h
  split_ifs at h with h1 h2
  exact ⟨(Option.some.injEq _ _ ▸ h).symm, h1, h2⟩

/-! ## C8: null exactly when there is nothing to lay out -/

lemma stableSortByKey_eq_nil_iff {α : Type} (key : α → ℚ) (l : List α) :
    stableSortByKey key l = [] ↔ l = [] := by
  constructor
  · intro h
    have := (stableSortByKey_perm key l).length_eq
    rw [h] at this
    exact List.length_eq_zero.1 this.symm
  · intro h
    subst h
    rfl

lemma mem_stableSortByKey {α : Type} (key : α → ℚ) (l : List α) (a : α) :
    a ∈ stableSortByKey key l ↔ a ∈ l :=
  (stableSortByKey_perm key l).mem_iff

/-- C8: `calculateTreeLayout` returns `null` exactly when the group collection
is empty, or the step collection is empty, or an active visible-group filter
excludes every group; otherwise it returns a layout result (and, being a total
function, never throws). -/
theorem C8_layout_null_iff (inp : LayoutInput) :
    calculateTreeLayout inp = none ↔
      (inp.groups = [] ∨ inp.steps = [] ∨
        ∃ vis, inp.visibleGroupIds = some vis ∧ ∀ g ∈ inp.groups, g.id ∉ vis) := by
  have hfil : filteredGroupsOf inp = [] ↔
      (inp.groups = [] ∨
        ∃ vis, inp.visibleGroupIds = some vis ∧ ∀ g ∈ inp.groups, g.id ∉ vis) := by
    unfold filteredGroupsOf
    cases hv : inp.visibleGroupIds with
    | none =>
        rw [stableSortByKey_eq_nil_iff]
        constructor
        · intro h
          exact Or.inl h
        · rintro (h | ⟨vis, hvis, _⟩)
          · exact h
          · simp at hvis
    | some vis =>
        rw [List.filter_eq_nil_iff]
        constructor
        · intro h
          refine Or.inr ⟨vis, rfl, ?_⟩
          intro g hg hmem
          have := h g ((mem_stableSortByKey groupKey inp.groups g).2 hg)
          rw [List.contains_iff_exists_mem_beq] at this
          exact this ⟨g.id, hmem, by simp⟩
        · rintro (h | ⟨vis2, hvis2, h⟩)
          · intro g hg
            rw [h] at hg
            have := (mem_stableSortByKey groupKey [] g).1 hg
            simp at this
          · rw [Option.some.injEq] at hvis2
            subst hvis2
            intro g hg
            have hgmem := (mem_stableSortByKey groupKey inp.groups g).1 hg
            rw [List.contains_iff_exists_mem_beq]
            rintro ⟨a, ha, hab⟩
            rw [beq_iff_eq] at hab
            exact h g hgmem (hab ▸ ha)
  unfold calculateTreeLayout
  split_ifs with h1 h2
  · simp only [true_iff]
    tauto
  · simp only [true_iff]
    exact Or.inr (Or.inr ((hfil.1 h2).resolve_left (fun hg => h1 (Or.inl hg))))
  · simp only [reduceCtorEq, false_iff]
    rintro (h | h | h)
    · exact h1 (Or.inl h)
    · exact h1 (Or.inr h)
    · exact h2 (hfil.2 (Or.inr h))

/-! ## C2: group ordering -/

lemma enumFrom_map_snd {α : Type} : ∀ (n : ℕ) (l : List α), (l.enumFrom n).map Prod.snd = l
  | _, [] => rfl
  | n, x :: xs => by
      rw [List.enumFrom_cons, List.map_cons, enumFrom_map_snd (n + 1) xs]

/-- `acc.curY` strictly increases across one group: the swimlane height is at
least `VERTICAL_GAP * 1.5 + 2 * swimPadY` and a positive gap is added. -/
lemma curY_lt_next (c : ℚ) (A : ℚ) :
    c < c + (max A (VERTICAL_GAP * (3/2)) + swimPadY * 2) + swimGap := by
  have h := le_max_right A (VERTICAL_GAP * (3/2))
  rw [VERTICAL_GAP] at h ⊢
  rw [swimPadY, swimGap]
  linarith

lemma layoutFold_swim_facts (steps : List Step) (parts : List Part) (fasts : List Fastener)
    (gColX : ℚ) (acc : LayoutAcc) (gig : ℕ × Group) :
    ((layoutFold steps parts fasts gColX acc gig).swimlanes.map Swimlane.grp =
      acc.swimlanes.map Swimlane.grp ++ [gig.2]) ∧
    (∃ sl : Swimlane, sl.startY = acc.curY ∧
      (layoutFold steps parts fasts gColX acc gig).swimlanes = acc.swimlanes ++ [sl]) ∧
    acc.curY < (layoutFold steps parts fasts gColX acc gig).curY := by
  refine ⟨?_, ⟨_, rfl, rfl⟩, ?_⟩
  · show (acc.swimlanes ++ [_]).map Swimlane.grp = _
    rw [List.map_append]
    rfl
  · exact curY_lt_next acc.curY _

lemma layoutFold_swim_inv (steps : List Step) (parts : List Part) (fasts : List Fastener)
    (gColX : ℚ) (gl : List (ℕ × Group)) (acc : LayoutAcc)
    (hmono : acc.swimlanes.Pairwise (fun a b => a.startY < b.startY))
    (hlt : ∀ sl ∈ acc.swimlanes, sl.startY < acc.curY) :
    ((gl.foldl (layoutFold steps parts fasts gColX) acc).swimlanes.map Swimlane.grp =
      acc.swimlanes.map Swimlane.grp ++ gl.map Prod.snd) ∧
    (gl.foldl (layoutFold steps parts fasts gColX) acc).swimlanes.Pairwise
      (fun a b => a.startY < b.startY) ∧
    (∀ sl ∈ (gl.foldl (layoutFold steps parts fasts gColX) acc).swimlanes,
      sl.startY < (gl.foldl (layoutFold steps parts fasts gColX) acc).curY) := by
  induction gl generalizing acc with
  | nil => simpa using ⟨hmono, hlt⟩
  | cons g gl ih =>
      rw [List.foldl_cons]
      obtain ⟨hmap, ⟨sl, hslY, hsw⟩, hcur⟩ :=
        layoutFold_swim_facts steps parts fasts gColX acc g
      have hmono' : (layoutFold steps parts fasts gColX acc g).swimlanes.Pairwise
          (fun a b => a.startY < b.startY) := by
        rw [hsw, List.pairwise_append]
        refine ⟨hmono, List.pairwise_singleton _ _, ?_⟩
        intro a ha b hb
        rw [List.mem_singleton] at hb
        subst hb
        rw [hslY]
        exact hlt a ha
      have hlt' : ∀ s ∈ (layoutFold steps parts fasts gColX acc g).swimlanes,
          s.startY < (layoutFold steps parts fasts gColX acc g).curY := by
        intro s hs
        rw [hsw, List.mem_append] at hs
        rcases hs with hs | hs
        · exact lt_trans (hlt s hs) hcur
        · rw [List.mem_singleton] at hs
          subst hs
          rw [hslY]
          exact hcur
      obtain ⟨m1, m2, m3⟩ := ih (layoutFold steps parts fasts gColX acc g) hmono' hlt'
      refine ⟨?_, m2, m3⟩
      rw [m1, hmap, List.map_cons, List.append_assoc]
      rfl

/-- C2 (amended): the layout sorts the groups by sort key; equal sort keys
keep their relative order *from the input collection* (the sort is stable) —
not by smaller identifier (see the counterexample); when a visibility filter
is active the filtered subset preserves that relative order; and the swimlane
bands are assigned to the filtered groups in exactly that order, with strictly
increasing band tops. -/
theorem C2_group_order_amended (inp : LayoutInput) (L : LayoutResult)
    (h : calculateTreeLayout inp = some L) :
    L.sortedGroups.Pairwise (fun a b => groupKey a ≤ groupKey b) ∧
    (∀ k : ℚ, (stableSortByKey groupKey inp.groups).filter (fun g => groupKey g == k) =
      inp.groups.filter (fun g => groupKey g == k)) ∧
    L.sortedGroups.Sublist (stableSortByKey groupKey inp.groups) ∧
    L.swimlanes.map Swimlane.grp = L.sortedGroups ∧
    L.swimlanes.Pairwise (fun a b => a.startY < b.startY) := by
  obtain ⟨hL, -, -⟩ := calculateTreeLayout_some_inv inp L h
  subst hL
  obtain ⟨hmap, hpair, -⟩ := layoutFold_swim_inv inp.steps inp.parts inp.fasts
    (stepColX + inp.gap1) (filteredGroupsOf inp).enum
    { allNodes := [], allLinks := [], swimlanes := [], curY := topPad + headerH }
    (List.Pairwise.nil) (by intro sl hs; simp at hs)
  refine ⟨?_, fun k => stableSortByKey_stable groupKey k inp.groups, ?_, ?_, hpair⟩
  · show (filteredGroupsOf inp).Pairwise (fun a b => groupKey a ≤ groupKey b)
    unfold filteredGroupsOf
    cases inp.visibleGroupIds with
    | none => exact stableSortByKey_sorted groupKey inp.groups
    | some vis =>
        exact List.Pairwise.sublist (List.filter_sublist _)
          (stableSortByKey_sorted groupKey inp.groups)
  · show (filteredGroupsOf inp).Sublist (stableSortByKey groupKey inp.groups)
    unfold filteredGroupsOf
    cases inp.visibleGroupIds with
    | none => exact List.Sublist.refl _
    | some vis => exact List.filter_sublist _
  · show (layoutAccOf inp).swimlanes.map Swimlane.grp = filteredGroupsOf inp
    unfold layoutAccOf
    rw [hmap, List.map_nil, List.nil_append]
    exact enumFrom_map_snd 0 _

/-- C2 counterexample: two groups with *equal* sort keys, the one with the
larger identifier (2) listed first in the input collection.  The code's stable
sort keeps the input order, so group 2 — not the group with the smaller
identifier — receives the first (topmost) swimlane band, refuting the claimed
identifier tie-break. -/
theorem C2_counterexample :
    ((calculateTreeLayout
        { groups := [⟨2, some 1, "B"⟩, ⟨1, some 1, "A"⟩]
          steps := [⟨10, 2, some 1, "s10", none, none, none⟩,
                    ⟨11, 1, some 1, "s11", none, none, none⟩]
          parts := []
          fasts := []
          visibleGroupIds := none
          gap1 := 300
          gap2 := 240 }).map
      (fun L => L.swimlanes.map (fun sl => (sl.grp.id, sl.startY)))) =
        some [(2, 120), (1, 314)] ∧
    groupKey ⟨2, some 1, "B"⟩ = groupKey ⟨1, some 1, "A"⟩ ∧
    [(2, (120:ℚ)), (1, 314)].map Prod.fst ≠ [1, 2] := by
  refine ⟨?_, rfl, by simp⟩
  with_unfolding_all decide

/-! ## Rendered graph state (`renderGraph`, graph.js 388–774)

The drag handler works on the rendered scene: the module-level `_allNodes`
array plus the DOM elements with their data attributes.  We model that scene
explicitly. -/

/-- A rendered fastener label (`.fast-label`): `data-stepid`, `data-labelpos`,
`data-sx/sy/tx/ty`, and its current `translate(px, py)`. -/
structure RenderedLabel where
  stepDbId : Option ℕ
  labelPos : ℚ
  sx : ℚ
  sy : ℚ
  tx : ℚ
  ty : ℚ
  px : ℚ
  py : ℚ
deriving DecidableEq

/-- A rendered link (`.link-group`): `data-src`, `data-tgt`, the bezier path
endpoints, and the optional fastener label. -/
structure RenderedLink where
  srcId : NodeId
  tgtId : NodeId
  psx : ℚ
  psy : ℚ
  ptx : ℚ
  pty : ℚ
  label : Option RenderedLabel
deriving DecidableEq

/-- A rendered part hexagon (`.part-hex`): `data-stepid`, `data-partid`,
`data-offsety`, and its `translate(px, py)`. -/
structure PartHex where
  stepId : ℕ
  partId : ℕ
  offsetY : ℚ
  px : ℚ
  py : ℚ
deriving DecidableEq

/-- A rendered part connector (`.part-link`): `data-stepid` and the geometry
its path string is built from. -/
structure PartLinkEl where
  stepId : ℕ
  startX : ℚ
  startY : ℚ
  endX : ℚ
  endY : ℚ
deriving DecidableEq

/-- The rendered scene: `_allNodes`, the link layer, the part layer,
`window._eagleEyePositions`, `state.layoutDirty`, and the pieces of module
state the drag handler reads (`state.showPartNodes`, `state.parts`). -/
structure GraphState where
  nodes : List Node
  links : List RenderedLink
  partHexes : List PartHex
  partLinks : List PartLinkEl
  positions : List (ℕ × ℚ × ℚ)
  layoutDirty : Bool
  showPartNodes : Bool
  partsData : List Part
deriving DecidableEq

/-- Does a step→group link get a label block?  The `lines` array
(graph.js 477–481) is nonempty iff one of these conditions holds. -/
def labelLines (lk : Link) : Bool :=
  lk.fastener_pn.isSome ||
    (match lk.loctite with | some l => l != "---" | none => false) ||
    (match lk.torque with | some t => t != "---" | none => false) ||
    decide (lk.totalFasteners > 1)

/-- Render one link (graph.js 455–541): skipped entirely when either endpoint
node is absent from the node table. -/
def renderLink (nodes : List Node) (showFastenerLabels : Bool) (lk : Link) :
    Option RenderedLink :=
  match findNode nodes lk.sourceId, findNode nodes lk.targetId with
  | some src, some tgt =>
      let sx := src.x + src.w / 2
      let sy := src.y
      let tx := tgt.x - tgt.w / 2
      let ty := tgt.y
      let label :=
        if showFastenerLabels && (lk.type == LinkType.stepToGroup) &&
            decide (lk.totalFasteners > 0) && labelLines lk then
          let t := lk.labelPos.getD (1/2)
          let bp := bezierPoint t sx sy tx ty
          some { stepDbId := lk.stepDbId, labelPos := t,
                 sx := sx, sy := sy, tx := tx, ty := ty, px := bp.1, py := bp.2 }
        else none
      some { srcId := lk.sourceId, tgtId := lk.targetId,
             psx := sx, psy := sy, ptx := tx, pty := ty, label := label }
  | _, _ => none

/-- Render the part hexagons and connectors of one step node
(graph.js 546–588). -/
def renderPartsFor (partsData : List Part) (nd : Node) : List PartHex × List PartLinkEl :=
  let sp := stableSortByKey partKey (partsData.filter (fun p => some p.step_id == nd.dbId))
  if sp.isEmpty then ([], [])
  else
    let partSpacing : ℚ := 34
    let totalH := ((sp.length : ℚ) - 1) * partSpacing
    let px := nd.x - nd.w / 2 - PART_NODE_WIDTH / 2 - 30
    (sp.enum.map (fun pip =>
        { stepId := nd.dbId.getD 0, partId := pip.2.id,
          offsetY := (nd.y - totalH / 2 + (pip.1 : ℚ) * partSpacing) - nd.y,
          px := px, py := nd.y - totalH / 2 + (pip.1 : ℚ) * partSpacing }),
     sp.enum.map (fun pip =>
        { stepId := nd.dbId.getD 0,
          startX := px + PART_NODE_WIDTH / 2,
          startY := nd.y - totalH / 2 + (pip.1 : ℚ) * partSpacing,
          endX := nd.x - nd.w / 2, endY := nd.y }))

/-- Build the rendered scene from a layout result (graph.js 388–774).
`dirty` is the current `state.layoutDirty`, which rendering leaves alone. -/
def render (L : LayoutResult) (showFastenerLabels showPartNodes dirty : Bool)
    (partsData : List Part) : GraphState :=
  { nodes := L.nodes
    links := L.links.filterMap (renderLink L.nodes showFastenerLabels)
    partHexes := if showPartNodes then
        ((L.nodes.filter (fun n => n.isStep)).map
          (fun nd => (renderPartsFor partsData nd).1)).flatten
      else []
    partLinks := if showPartNodes then
        ((L.nodes.filter (fun n => n.isStep)).map
          (fun nd => (renderPartsFor partsData nd).2)).flatten
      else []
    positions := (L.nodes.filter (fun n => n.isStep)).map (fun n => (n.dbId.getD 0, n.x, n.y))
    layoutDirty := dirty
    showPartNodes := showPartNodes
    partsData := partsData }

/-! ## The incremental drag propagator (graph.js 659–744) -/

/-- Mutate the first element satisfying `p` — exactly what assigning to the
object returned by `Array.prototype.find` does. -/
def updateFirst {α : Type} (p : α → Bool) (f : α → α) : List α → List α
  | [] => []
  | x :: xs => if p x then f x :: xs else x :: updateFirst p f xs

/-- The drag handler's search predicates. -/
def stepPred (k : ℕ) (n : Node) : Bool := n.isStep && n.dbId == some k

def groupPred (gid : Option ℕ) (n : Node) : Bool := n.isGroup && n.groupId == gid

def rootPred (n : Node) : Bool := n.isRoot

/-- `_allNodes.filter(n => n.isStep && n.groupId === gid).map(n => n.y)`. -/
def memberYs (nodes : List Node) (gid : Option ℕ) : List ℚ :=
  (nodes.filter (fun n => n.isStep && n.groupId == gid)).map Node.y

/-- `_allNodes.filter(n => n.isGroup).map(n => n.y)`. -/
def groupYsOf (nodes : List Node) : List ℚ :=
  (nodes.filter (fun n => n.isGroup)).map Node.y

/-- Recenter the moved step's group (graph.js 668–677). -/
def recenterGroup (nodes : List Node) (gid : Option ℕ) : List Node :=
  match nodes.find? (groupPred gid) with
  | none => nodes
  | some _ =>
      let sibYs := memberYs nodes gid
      if sibYs.isEmpty then nodes
      else updateFirst (groupPred gid)
        (fun n => { n with y := (listMin sibYs + listMax sibYs) / 2 }) nodes

/-- Recenter the root (graph.js 679–688). -/
def recenterRoot (nodes : List Node) : List Node :=
  match nodes.find? rootPred with
  | none => nodes
  | some _ =>
      let gYs := groupYsOf nodes
      if gYs.isEmpty then nodes
      else updateFirst rootPred
        (fun n => { n with y := (listMin gYs + listMax gYs) / 2 }) nodes

/-- Re-derive one rendered link's bezier path and label position from the
current node table (graph.js 691–715): the label is re-anchored at its
*stored* `data-labelpos` (`parseFloat(..) || 0.5`), and the stored endpoint
attributes are refreshed. -/
def updateRenderedLink (nodes : List Node) (lk : RenderedLink) : RenderedLink :=
  match findNode nodes lk.srcId, findNode nodes lk.tgtId with
  | some src, some tgt =>
      let sx := src.x + src.w / 2
      let sy := src.y
      let tx := tgt.x - tgt.w / 2
      let ty := tgt.y
      { lk with
        psx := sx
        psy := sy
        ptx := tx
        pty := ty
        label := lk.label.map (fun l =>
          let t := if l.labelPos == 0 then 1/2 else l.labelPos
          let pt := bezierPoint t sx sy tx ty
          { l with px := pt.1, py := pt.2, sx := sx, sy := sy, tx := tx, ty := ty }) }
  | _, _ => lk

/-- Move the part hexagons of the dragged step (graph.js 724–730): each keeps
its stored `data-offsety` relative to the step. -/
def updatePartHexes (hexes : List PartHex) (k : ℕ) (d : Node) : List PartHex :=
  hexes.map (fun hx =>
    if hx.stepId == k then
      { hx with px := d.x - d.w / 2 - PART_NODE_WIDTH / 2 - 30, py := d.y + hx.offsetY }
    else hx)

/-- Rebuild the part connector paths of the dragged step (graph.js 732–741):
the running counter `pi2` advances only over the dragged step's connectors. -/
def updatePartLinksGo (k : ℕ) (d : Node) (totalH : ℚ) :
    List PartLinkEl → ℕ → List PartLinkEl
  | [], _ => []
  | pl :: rest, c =>
      if pl.stepId == k then
        { stepId := pl.stepId,
          startX := (d.x - d.w / 2 - PART_NODE_WIDTH / 2 - 30) + PART_NODE_WIDTH / 2,
          startY := d.y - totalH / 2 + (c : ℚ) * 34,
          endX := d.x - d.w / 2, endY := d.y } :: updatePartLinksGo k d totalH rest (c + 1)
      else pl :: updatePartLinksGo k d totalH rest c

/-- JavaScript object assignment `positions[k] = v`: replace when present,
append otherwise. -/
def setPos (m : List (ℕ × ℚ × ℚ)) (k : ℕ) (v : ℚ × ℚ) : List (ℕ × ℚ × ℚ) :=
  if m.any (fun e => e.1 == k) then m.map (fun e => if e.1 == k then (k, v) else e)
  else m ++ [(k, v)]

/-- The full drag update (graph.js 659–744) for the step with database id `k`
moved to `newY`: pin the step, recenter its group, recenter the root, rebuild
every link path and label anchor, and move the dragged step's part leaves.
`if (d.dbId)` guards the positions write — step id `0` is falsy in
JavaScript. -/
def dragStep (st : GraphState) (k : ℕ) (newY : ℚ) : GraphState :=
  match st.nodes.find? (stepPred k) with
  | none => st
  | some n0 =>
      let d : Node := { n0 with y := newY }
      let nodes1 := updateFirst (stepPred k) (fun n => { n with y := newY }) st.nodes
      let positions1 := if k == 0 then st.positions else setPos st.positions k (d.x, d.y)
      let nodes2 := recenterGroup nodes1 d.groupId
      let nodes3 := recenterRoot nodes2
      let links1 := st.links.map (updateRenderedLink nodes3)
      let sp := stableSortByKey partKey (st.partsData.filter (fun p => some p.step_id == d.dbId))
      let totalH : ℚ := ((sp.length : ℚ) - 1) * 34
      { st with
        nodes := nodes3
        links := links1
        partHexes := if st.showPartNodes then updatePartHexes st.partHexes k d
          else st.partHexes
        partLinks := if st.showPartNodes then updatePartLinksGo k d totalH st.partLinks 0
          else st.partLinks
        positions := positions1
        layoutDirty := true }

/-! ### C4: idempotence of the drag propagator -/

lemma setY_self (n : Node) (v : ℚ) (h : n.y = v) : ({ n with y := v } : Node) = n := by
  cases n
  cases h
  rfl

lemma updateFirst_eq_self {α : Type} (p : α → Bool) (f : α → α) (l : List α) (a : α)
    (hfind : l.find? p = some a) (hfix : f a = a) : updateFirst p f l = l := by
  induction l with
  | nil => simp at hfind
  | cons x xs ih =>
      by_cases hx : p x
      · rw [List.find?_cons_of_pos _ hx] at hfind
        injection hfind with hxa
        subst hxa
        rw [updateFirst, if_pos hx, hfix]
      · rw [List.find?_cons_of_neg _ hx] at hfind
        rw [updateFirst, if_neg hx, ih hfind]

lemma find?_updateFirst_self {α : Type} (p : α → Bool) (f : α → α) (l : List α) (a : α)
    (hfind : l.find? p = some a) (hp : ∀ b, p (f b) = p b) :
    (updateFirst p f l).find? p = some (f a) := by
  induction l with
  | nil => simp at hfind
  | cons x xs ih =>
      by_cases hx : p x
      · rw [List.find?_cons_of_pos _ hx] at hfind
        injection hfind with hxa
        subst hxa
        rw [updateFirst, if_pos hx, List.find?_cons_of_pos _ (by rw [hp]; exact hx)]
      · rw [List.find?_cons_of_neg _ hx] at hfind
        rw [updateFirst, if_neg hx, List.find?_cons_of_neg _ hx, ih hfind]

lemma find?_updateFirst_other {α : Type} (p q : α → Bool) (f : α → α) (l : List α)
    (hq : ∀ b, q (f b) = q b) (hdisj : ∀ b ∈ l, p b = true → q b = false) :
    (updateFirst p f l).find? q = l.find? q := by
  induction l with
  | nil => rfl
  | cons x xs ih =>
      by_cases hx : p x
      · have hqx : q x = false := hdisj x (List.mem_cons_self x xs) hx
        rw [updateFirst, if_pos hx,
          List.find?_cons_of_neg _ (by rw [hq]; simp [hqx]),
          List.find?_cons_of_neg _ (by simp [hqx])]
      · rw [updateFirst, if_neg hx]
        by_cases hqx : q x
        · rw [List.find?_cons_of_pos _ hqx, List.find?_cons_of_pos _ hqx]
        · rw [List.find?_cons_of_neg _ hqx, List.find?_cons_of_neg _ hqx]
          exact ih (fun b hb => hdisj b (List.mem_cons_of_mem x hb))

lemma filter_updateFirst_notin {α : Type} (p q : α → Bool) (f : α → α) (l : List α)
    (hq : ∀ b, q (f b) = q b) (hdisj : ∀ b ∈ l, p b = true → q b = false) :
    (updateFirst p f l).filter q = l.filter q := by
  induction l with
  | nil => rfl
  | cons x xs ih =>
      by_cases hx : p x
      · have hqx : q x = false := hdisj x (List.mem_cons_self x xs) hx
        rw [updateFirst, if_pos hx, List.filter_cons, List.filter_cons]
        rw [hq x, hqx]
        simp
      · rw [updateFirst, if_neg hx, List.filter_cons, List.filter_cons,
          ih (fun b hb => hdisj b (List.mem_cons_of_mem x hb))]

lemma mem_updateFirst {α : Type} (p : α → Bool) (f : α → α) (l : List α) (x : α)
    (hx : x ∈ updateFirst p f l) : x ∈ l ∨ ∃ a ∈ l, x = f a := by
  induction l with
  | nil => simp [updateFirst] at hx
  | cons z zs ih =>
      by_cases hz : p z
      · rw [updateFirst, if_pos hz] at hx
        rcases List.mem_cons.1 hx with rfl | hx
        · exact Or.inr ⟨z, List.mem_cons_self z zs, rfl⟩
        · exact Or.inl (List.mem_cons_of_mem z hx)
      · rw [updateFirst, if_neg hz] at hx
        rcases List.mem_cons.1 hx with rfl | hx
        · exact Or.inl (List.mem_cons_self x zs)
        · rcases ih hx with h | ⟨a, ha, hfa⟩
          · exact Or.inl (List.mem_cons_of_mem z h)
          · exact Or.inr ⟨a, List.mem_cons_of_mem z ha, hfa⟩

/-- The flag discipline every node table of this app satisfies: a group node
is not a step node, and the root is neither. -/
def FlagsExclusive (nodes : List Node) : Prop :=
  ∀ n ∈ nodes, (n.isGroup = true → n.isStep = false) ∧
    (n.isRoot = true → n.isStep = false ∧ n.isGroup = false)

lemma flagsExclusive_updateFirst (p : Node → Bool) (g : Node → Node)
    (hg : ∀ n, (g n).isStep = n.isStep ∧ (g n).isGroup = n.isGroup ∧ (g n).isRoot = n.isRoot)
    (l : List Node) (h : FlagsExclusive l) : FlagsExclusive (updateFirst p g l) := by
  intro n hn
  rcases mem_updateFirst p g l n hn with hmem | ⟨a, ha, rfl⟩
  · exact h n hmem
  · obtain ⟨h1, h2, h3⟩ := hg a
    obtain ⟨ha1, ha2⟩ := h a ha
    rw [h1, h2, h3]
    exact ⟨ha1, ha2⟩

/-- Moving a non-step node vertically does not change any group's member-step
`y`-list. -/
lemma memberYs_updateFirst (p : Node → Bool) (v : ℚ) (X : List Node) (gid : Option ℕ)
    (hdisj : ∀ b ∈ X, p b = true → (b.isStep && b.groupId == gid) = false) :
    memberYs (updateFirst p (fun n => { n with y := v }) X) gid = memberYs X gid := by
  unfold memberYs
  exact congrArg (List.map Node.y)
    (filter_updateFirst_notin p (fun n => n.isStep && n.groupId == gid)
      (fun n => { n with y := v }) X (fun b => rfl) hdisj)

/-- Moving a non-group node vertically does not change the group `y`-list. -/
lemma groupYsOf_updateFirst (p : Node → Bool) (v : ℚ) (X : List Node)
    (hdisj : ∀ b ∈ X, p b = true → b.isGroup = false) :
    groupYsOf (updateFirst p (fun n => { n with y := v }) X) = groupYsOf X := by
  unfold groupYsOf
  exact congrArg (List.map Node.y)
    (filter_updateFirst_notin p (fun n => n.isGroup)
      (fun n => { n with y := v }) X (fun b => rfl) hdisj)

/-- A node table whose first `gid`-group node (if any) already sits at the
centroid of its current member steps. -/
def groupSettled (X : List Node) (gid : Option ℕ) : Prop :=
  ∀ gn, X.find? (groupPred gid) = some gn →
    memberYs X gid = [] ∨
      gn.y = (listMin (memberYs X gid) + listMax (memberYs X gid)) / 2

/-- A node table whose root (if any) already sits at the centroid of the
current group nodes. -/
def rootSettled (X : List Node) : Prop :=
  ∀ rn, X.find? rootPred = some rn →
    groupYsOf X = [] ∨
      rn.y = (listMin (groupYsOf X) + listMax (groupYsOf X)) / 2

lemma recenterGroup_of_settled (X : List Node) (gid : Option ℕ)
    (h : groupSettled X gid) : recenterGroup X gid = X := by
  unfold recenterGroup
  cases hf : X.find? (groupPred gid) with
  | none => rfl
  | some gn =>
      rcases h gn hf with hmem | hy
      · simp [hmem]
      · by_cases he : (memberYs X gid).isEmpty
        · rw [if_pos he]
        · rw [if_neg he]
          exact updateFirst_eq_self _ _ _ _ hf (setY_self gn _ hy)

lemma recenterRoot_of_settled (X : List Node) (h : rootSettled X) : recenterRoot X = X := by
  unfold recenterRoot
  cases hf : X.find? rootPred with
  | none => rfl
  | some rn =>
      rcases h rn hf with hmem | hy
      · simp [hmem]
      · by_cases he : (groupYsOf X).isEmpty
        · rw [if_pos he]
        · rw [if_neg he]
          exact updateFirst_eq_self _ _ _ _ hf (setY_self rn _ hy)

lemma groupSettled_recenterGroup (X : List Node) (gid : Option ℕ)
    (hex : FlagsExclusive X) : groupSettled (recenterGroup X gid) gid := by
  unfold recenterGroup
  cases hf : X.find? (groupPred gid) with
  | none =>
      intro gn hg
      rw [hf] at hg
      cases hg
  | some gn0 =>
      by_cases he : (memberYs X gid).isEmpty
      · rw [if_pos he]
        intro gn _
        exact Or.inl (List.isEmpty_iff.1 he)
      · rw [if_neg he]
        have hpres : ∀ b : Node,
            groupPred gid { b with y := (listMin (memberYs X gid) + listMax (memberYs X gid)) / 2 }
              = groupPred gid b := fun b => rfl
        have hdisj : ∀ b ∈ X, groupPred gid b = true →
            (b.isStep && b.groupId == gid) = false := by
          intro b hb hgp
          rw [groupPred, Bool.and_eq_true] at hgp
          have := (hex b hb).1 hgp.1
          simp [this]
        have hmem := memberYs_updateFirst (groupPred gid)
          ((listMin (memberYs X gid) + listMax (memberYs X gid)) / 2) X gid hdisj
        intro gn hg
        rw [find?_updateFirst_self _ _ _ gn0 hf hpres] at hg
        injection hg with hg
        rw [hmem, ← hg]
        exact Or.inr rfl

lemma rootSettled_recenterRoot (X : List Node) (hex : FlagsExclusive X) :
    rootSettled (recenterRoot X) := by
  unfold recenterRoot
  cases hf : X.find? rootPred with
  | none =>
      intro rn hr
      rw [hf] at hr
      cases hr
  | some rn0 =>
      by_cases he : (groupYsOf X).isEmpty
      · rw [if_pos he]
        intro rn _
        exact Or.inl (List.isEmpty_iff.1 he)
      · rw [if_neg he]
        have hpres : ∀ b : Node,
            rootPred { b with y := (listMin (groupYsOf X) + listMax (groupYsOf X)) / 2 }
              = rootPred b := fun b => rfl
        have hdisj : ∀ b ∈ X, rootPred b = true → b.isGroup = false := by
          intro b hb hrp
          exact ((hex b hb).2 hrp).2
        have hmem := groupYsOf_updateFirst rootPred
          ((listMin (groupYsOf X) + listMax (groupYsOf X)) / 2) X hdisj
        intro rn hr
        rw [find?_updateFirst_self _ _ _ rn0 hf hpres] at hr
        injection hr with hr
        rw [hmem, ← hr]
        exact Or.inr rfl

lemma groupSettled_recenterRoot (X : List Node) (gid : Option ℕ)
    (hex : FlagsExclusive X) (h : groupSettled X gid) :
    groupSettled (recenterRoot X) gid := by
  unfold recenterRoot
  cases hf : X.find? rootPred with
  | none => exact h
  | some rn0 =>
      dsimp only
      by_cases he : (groupYsOf X).isEmpty
      · rw [if_pos he]
        exact h
      · rw [if_neg he]
        have hdisjG : ∀ b ∈ X, rootPred b = true → groupPred gid b = false := by
          intro b hb hrp
          rw [groupPred]
          have := ((hex b hb).2 hrp).2
          simp [this]
        have hdisjM : ∀ b ∈ X, rootPred b = true →
            (b.isStep && b.groupId == gid) = false := by
          intro b hb hrp
          have := ((hex b hb).2 hrp).1
          simp [this]
        have hpres : ∀ b : Node,
            groupPred gid { b with y := (listMin (groupYsOf X) + listMax (groupYsOf X)) / 2 }
              = groupPred gid b := fun b => rfl
        intro gn hg
        rw [find?_updateFirst_other rootPred (groupPred gid)
          (fun n => { n with y := (listMin (groupYsOf X) + listMax (groupYsOf X)) / 2 })
          X hpres hdisjG] at hg
        rw [memberYs_updateFirst rootPred
          ((listMin (groupYsOf X) + listMax (groupYsOf X)) / 2) X gid hdisjM]
        exact h gn hg

lemma flagsExclusive_recenterGroup (X : List Node) (gid : Option ℕ)
    (hex : FlagsExclusive X) : FlagsExclusive (recenterGroup X gid) := by
  unfold recenterGroup
  cases X.find? (groupPred gid) with
  | none => exact hex
  | some gn =>
      dsimp only
      by_cases he : (memberYs X gid).isEmpty
      · rw [if_pos he]
        exact hex
      · rw [if_neg he]
        refine flagsExclusive_updateFirst _ _ ?_ X hex
        intro n
        exact ⟨rfl, rfl, rfl⟩

lemma flagsExclusive_recenterRoot (X : List Node) (hex : FlagsExclusive X) :
    FlagsExclusive (recenterRoot X) := by
  unfold recenterRoot
  cases X.find? rootPred with
  | none => exact hex
  | some rn =>
      dsimp only
      by_cases he : (groupYsOf X).isEmpty
      · rw [if_pos he]
        exact hex
      · rw [if_neg he]
        refine flagsExclusive_updateFirst _ _ ?_ X hex
        intro n
        exact ⟨rfl, rfl, rfl⟩

lemma recenterGroup_find?_stepPred (X : List Node) (gid : Option ℕ) (k : ℕ)
    (hex : FlagsExclusive X) :
    (recenterGroup X gid).find? (stepPred k) = X.find? (stepPred k) := by
  unfold recenterGroup
  cases X.find? (groupPred gid) with
  | none => rfl
  | some gn =>
      dsimp only
      by_cases he : (memberYs X gid).isEmpty
      · rw [if_pos he]
      · rw [if_neg he]
        refine find?_updateFirst_other _ _ _ _ (fun b => rfl) ?_
        intro b hb hgp
        rw [groupPred, Bool.and_eq_true] at hgp
        have := (hex b hb).1 hgp.1
        rw [stepPred]
        simp [this]

lemma recenterRoot_find?_stepPred (X : List Node) (k : ℕ) (hex : FlagsExclusive X) :
    (recenterRoot X).find? (stepPred k) = X.find? (stepPred k) := by
  unfold recenterRoot
  cases X.find? rootPred with
  | none => rfl
  | some rn =>
      dsimp only
      by_cases he : (groupYsOf X).isEmpty
      · rw [if_pos he]
      · rw [if_neg he]
        refine find?_updateFirst_other _ _ _ _ (fun b => rfl) ?_
        intro b hb hrp
        have := ((hex b hb).2 hrp).1
        rw [stepPred]
        simp [this]

/-! Element-wise idempotence of the overwrite operations. -/

lemma updateRenderedLink_none (nodes : List Node) (lk : RenderedLink)
    (h : findNode nodes lk.srcId = none ∨ findNode nodes lk.tgtId = none) :
    updateRenderedLink nodes lk = lk := by
  unfold updateRenderedLink
  rcases h with h | h
  · rw [h]
  · rw [h]
    cases findNode nodes lk.srcId <;> rfl

lemma updateRenderedLink_of_finds (nodes : List Node) (lk : RenderedLink) (src tgt : Node)
    (hs : findNode nodes lk.srcId = some src) (ht : findNode nodes lk.tgtId = some tgt) :
    updateRenderedLink nodes lk =
      { lk with
        psx := src.x + src.w / 2
        psy := src.y
        ptx := tgt.x - tgt.w / 2
        pty := tgt.y
        label := lk.label.map (fun l =>
          let t := if l.labelPos == 0 then 1/2 else l.labelPos
          let pt := bezierPoint t (src.x + src.w / 2) src.y (tgt.x - tgt.w / 2) tgt.y
          { l with
            px := pt.1
            py := pt.2
            sx := src.x + src.w / 2
            sy := src.y
            tx := tgt.x - tgt.w / 2
            ty := tgt.y }) } := by
  unfold updateRenderedLink
  rw [hs, ht]

lemma updateRenderedLink_idem (nodes : List Node) (lk : RenderedLink) :
    updateRenderedLink nodes (updateRenderedLink nodes lk) = updateRenderedLink nodes lk := by
  cases hs : findNode nodes lk.srcId with
  | none =>
      rw [updateRenderedLink_none nodes lk (Or.inl hs)]
      exact updateRenderedLink_none nodes lk (Or.inl hs)
  | some src =>
      cases ht : findNode nodes lk.tgtId with
      | none =>
          rw [updateRenderedLink_none nodes lk (Or.inr ht)]
          exact updateRenderedLink_none nodes lk (Or.inr ht)
      | some tgt =>
          have e1 := updateRenderedLink_of_finds nodes lk src tgt hs ht
          have hsrc : findNode nodes (updateRenderedLink nodes lk).srcId = some src := by
            rw [e1]
            exact hs
          have htgt : findNode nodes (updateRenderedLink nodes lk).tgtId = some tgt := by
            rw [e1]
            exact ht
          have e2 := updateRenderedLink_of_finds nodes (updateRenderedLink nodes lk)
            src tgt hsrc htgt
          rw [e2, e1]
          cases lk.label with
          | none => rfl
          | some l => rfl

lemma updatePartHexes_idem (hexes : List PartHex) (k : ℕ) (d : Node) :
    updatePartHexes (updatePartHexes hexes k d) k d = updatePartHexes hexes k d := by
  unfold updatePartHexes
  rw [List.map_map]
  apply List.map_congr_left
  intro hx _
  by_cases h : hx.stepId = k
  · simp [h]
  · simp [h]

lemma updatePartLinksGo_idem (k : ℕ) (d : Node) (totalH : ℚ) (pls : List PartLinkEl) :
    ∀ c : ℕ, updatePartLinksGo k d totalH (updatePartLinksGo k d totalH pls c) c =
      updatePartLinksGo k d totalH pls c := by
  induction pls with
  | nil => intro c; rfl
  | cons pl rest ih =>
      intro c
      by_cases h : (pl.stepId == k) = true
      · simp only [updatePartLinksGo, h, if_true]
        rw [ih (c + 1)]
      · have h' : (pl.stepId == k) = false := by simpa using h
        simp only [updatePartLinksGo, h', Bool.false_eq_true, if_false]
        rw [ih c]

lemma setPos_idem (m : List (ℕ × ℚ × ℚ)) (k : ℕ) (v : ℚ × ℚ) :
    setPos (setPos m k v) k v = setPos m k v := by
  unfold setPos
  by_cases h : (m.any (fun e => e.1 == k)) = true
  · rw [if_pos h]
    have hany2 : ((m.map (fun e => if e.1 == k then (k, v) else e)).any
        (fun e => e.1 == k)) = true := by
      rw [List.any_eq_true] at h ⊢
      obtain ⟨e, he, hke⟩ := h
      refine ⟨(k, v), List.mem_map.2 ⟨e, he, by rw [if_pos hke]⟩, by simp⟩
    rw [if_pos hany2, List.map_map]
    apply List.map_congr_left
    intro e _
    by_cases hke : e.1 = k
    · simp [hke]
    · simp [hke]
  · rw [if_neg h]
    have hany2 : ((m ++ [(k, v)]).any (fun e => e.1 == k)) = true := by
      rw [List.any_eq_true]
      refine ⟨(k, v), List.mem_append.2 (Or.inr ?_), by simp⟩
      simp
    have hnone : ∀ e ∈ m, ¬ e.1 = k := by
      rw [List.any_eq_true] at h
      push_neg at h
      intro e he hc
      have := h e he
      simp [hc] at this
    rw [if_pos hany2, List.map_append]
    have hm : m.map (fun e => if e.1 == k then (k, v) else e) = m := by
      conv_rhs => rw [← List.map_id m]
      apply List.map_congr_left
      intro e he
      simp [hnone e he]
    rw [hm]
    congr 1
    simp

/-- Closed form of `dragStep` when the dragged step node is found. -/
lemma dragStep_of_find (st : GraphState) (k : ℕ) (newY : ℚ) (n0 : Node)
    (hf : st.nodes.find? (stepPred k) = some n0) :
    dragStep st k newY =
      { st with
        nodes := recenterRoot (recenterGroup
          (updateFirst (stepPred k) (fun n => { n with y := newY }) st.nodes) n0.groupId)
        links := st.links.map (updateRenderedLink (recenterRoot (recenterGroup
          (updateFirst (stepPred k) (fun n => { n with y := newY }) st.nodes) n0.groupId)))
        partHexes := if st.showPartNodes then
            updatePartHexes st.partHexes k { n0 with y := newY }
          else st.partHexes
        partLinks := if st.showPartNodes then
            updatePartLinksGo k { n0 with y := newY }
              ((((stableSortByKey partKey (st.partsData.filter
                (fun p => some p.step_id == n0.dbId))).length : ℚ) - 1) * 34)
              st.partLinks 0
          else st.partLinks
        positions := if k == 0 then st.positions else setPos st.positions k (n0.x, newY)
        layoutDirty := true } := by
  unfold dragStep
  rw [hf]

/-- C4: the drag propagator is idempotent — applying it twice with the same
(step, newY) yields a state (node table, link endpoints, label anchors, part
offsets, positions map, dirty flag) identical to applying it once.  The only
assumption is the app's flag discipline: group nodes and the root are not
step nodes. -/
theorem C4_dragStep_idempotent (st : GraphState) (k : ℕ) (newY : ℚ)
    (hex : FlagsExclusive st.nodes) :
    dragStep (dragStep st k newY) k newY = dragStep st k newY := by
  cases hf : st.nodes.find? (stepPred k) with
  | none =>
      have h1 : dragStep st k newY = st := by
        unfold dragStep
        rw [hf]
      rw [h1]
      exact h1
  | some n0 =>
      have hst1 := dragStep_of_find st k newY n0 hf
      have hex1 : FlagsExclusive
          (updateFirst (stepPred k) (fun n => { n with y := newY }) st.nodes) := by
        refine flagsExclusive_updateFirst _ _ ?_ _ hex
        intro n
        exact ⟨rfl, rfl, rfl⟩
      have hex2 : FlagsExclusive (recenterGroup
          (updateFirst (stepPred k) (fun n => { n with y := newY }) st.nodes) n0.groupId) :=
        flagsExclusive_recenterGroup _ _ hex1
      have hf1 : (updateFirst (stepPred k) (fun n => { n with y := newY }) st.nodes).find?
          (stepPred k) = some { n0 with y := newY } :=
        find?_updateFirst_self _ _ _ _ hf (fun b => rfl)
      have hf3 : (recenterRoot (recenterGroup
          (updateFirst (stepPred k) (fun n => { n with y := newY }) st.nodes)
            n0.groupId)).find? (stepPred k) = some { n0 with y := newY } := by
        rw [recenterRoot_find?_stepPred _ _ hex2, recenterGroup_find?_stepPred _ _ _ hex1, hf1]
      have hgs : groupSettled (recenterRoot (recenterGroup
          (updateFirst (stepPred k) (fun n => { n with y := newY }) st.nodes)
            n0.groupId)) n0.groupId :=
        groupSettled_recenterRoot _ _ hex2 (groupSettled_recenterGroup _ _ hex1)
      have hrs : rootSettled (recenterRoot (recenterGroup
          (updateFirst (stepPred k) (fun n => { n with y := newY }) st.nodes) n0.groupId)) :=
        rootSettled_recenterRoot _ hex2
      have hffull : (dragStep st k newY).nodes.find? (stepPred k) =
          some { n0 with y := newY } := by
        rw [hst1]
        exact hf3
      have hst2 := dragStep_of_find (dragStep st k newY) k newY { n0 with y := newY } hffull
      rw [hst2]
      have hself : updateFirst (stepPred k) (fun n => { n with y := newY })
          (dragStep st k newY).nodes = (dragStep st k newY).nodes := by
        refine updateFirst_eq_self _ _ _ _ hffull ?_
        exact setY_self _ _ rfl
      have hnodes : recenterRoot (recenterGroup
          (updateFirst (stepPred k) (fun n => { n with y := newY })
            (dragStep st k newY).nodes)
          ({ n0 with y := newY } : Node).groupId) = (dragStep st k newY).nodes := by
        rw [hself]
        have hA : (dragStep st k newY).nodes = recenterRoot (recenterGroup
            (updateFirst (stepPred k) (fun n => { n with y := newY }) st.nodes)
              n0.groupId) := by
          rw [hst1]
        show recenterRoot (recenterGroup (dragStep st k newY).nodes n0.groupId) =
          (dragStep st k newY).nodes
        rw [hA]
        rw [recenterGroup_of_settled _ _ hgs, recenterRoot_of_settled _ hrs]
      rw [hnodes]
      have hlinks : (dragStep st k newY).links.map
          (updateRenderedLink (dragStep st k newY).nodes) = (dragStep st k newY).links := by
        rw [hst1]
        show (st.links.map _).map _ = st.links.map _
        rw [List.map_map]
        apply List.map_congr_left
        intro lk _
        exact updateRenderedLink_idem _ lk
      rw [hlinks]
      have hhex : (if (dragStep st k newY).showPartNodes then
          updatePartHexes (dragStep st k newY).partHexes k
            ({ n0 with y := newY } : Node) else (dragStep st k newY).partHexes) =
          (dragStep st k newY).partHexes := by
        rw [hst1]
        show (if st.showPartNodes then _ else _) = _
        by_cases hsp : st.showPartNodes
        · rw [if_pos hsp, if_pos hsp, if_pos hsp]
          exact updatePartHexes_idem _ _ _
        · rw [if_neg hsp, if_neg hsp, if_neg hsp]
      rw [hhex]
      have hpl : (if (dragStep st k newY).showPartNodes then
          updatePartLinksGo k ({ n0 with y := newY } : Node)
            ((((stableSortByKey partKey ((dragStep st k newY).partsData.filter
              (fun p => some p.step_id == ({ n0 with y := newY } : Node).dbId))).length : ℚ)
                - 1) * 34)
            (dragStep st k newY).partLinks 0
          else (dragStep st k newY).partLinks) = (dragStep st k newY).partLinks := by
        rw [hst1]
        show (if st.showPartNodes then _ else _) = _
        by_cases hsp : st.showPartNodes
        · rw [if_pos hsp, if_pos hsp, if_pos hsp]
          exact updatePartLinksGo_idem _ _ _ _ 0
        · rw [if_neg hsp, if_neg hsp, if_neg hsp]
      rw [hpl]
      have hpos : (if k == 0 then (dragStep st k newY).positions
          else setPos (dragStep st k newY).positions k
            (({ n0 with y := newY } : Node).x, newY)) = (dragStep st k newY).positions := by
        rw [hst1]
        show (if k == 0 then _ else _) = _
        by_cases hk : (k == 0) = true
        · rw [if_pos hk, if_pos hk]
        · rw [if_neg hk, if_neg hk]
          exact setPos_idem _ _ _
      rw [hpos]
      rw [hst1]

/-! ### C3: the centroid invariant -/

lemma mem_updateFirst_iff {α : Type} (p : α → Bool) (f : α → α) (l : List α) (a : α)
    (hnd : l.Nodup) (hfind : l.find? p = some a) (x : α) :
    x ∈ updateFirst p f l ↔ (x ∈ l ∧ x ≠ a) ∨ x = f a := by
  induction l with
  | nil => simp at hfind
  | cons z zs ih =>
      rcases List.nodup_cons.1 hnd with ⟨hz, hzs⟩
      by_cases hp : p z
      · rw [List.find?_cons_of_pos _ hp] at hfind
        injection hfind with hza
        subst hza
        rw [updateFirst, if_pos hp]
        constructor
        · intro hx
          rcases List.mem_cons.1 hx with rfl | hx
          · exact Or.inr rfl
          · exact Or.inl ⟨List.mem_cons_of_mem z hx, fun hcon => hz (hcon ▸ hx)⟩
        · rintro (⟨hx, hne⟩ | rfl)
          · rcases List.mem_cons.1 hx with rfl | hx
            · exact absurd rfl hne
            · exact List.mem_cons_of_mem _ hx
          · exact List.mem_cons_self _ _
      · rw [List.find?_cons_of_neg _ hp] at hfind
        have hamem : a ∈ zs := List.mem_of_find?_eq_some hfind
        rw [updateFirst, if_neg hp]
        constructor
        · intro hx
          rcases List.mem_cons.1 hx with rfl | hx
          · exact Or.inl ⟨List.mem_cons_self _ _, fun hcon => hz (hcon ▸ hamem)⟩
          · rcases (ih hzs hfind).1 hx with ⟨h1, h2⟩ | h1
            · exact Or.inl ⟨List.mem_cons_of_mem z h1, h2⟩
            · exact Or.inr h1
        · rintro (⟨hx, hne⟩ | rfl)
          · rcases List.mem_cons.1 hx with rfl | hx
            · exact List.mem_cons_self _ _
            · exact List.mem_cons_of_mem z ((ih hzs hfind).2 (Or.inl ⟨hx, hne⟩))
          · exact List.mem_cons_of_mem z ((ih hzs hfind).2 (Or.inr rfl))

/-- If the first `p`-match fails `q` both before and after modification, a
`q`-filter does not see the update. -/
lemma filter_updateFirst_found {α : Type} (p q : α → Bool) (f : α → α) (l : List α) (a : α)
    (hfind : l.find? p = some a) (hqa : q a = false) (hqfa : q (f a) = false) :
    (updateFirst p f l).filter q = l.filter q := by
  induction l with
  | nil => rfl
  | cons z zs ih =>
      by_cases hp : p z
      · rw [List.find?_cons_of_pos _ hp] at hfind
        injection hfind with hza
        subst hza
        rw [updateFirst, if_pos hp, List.filter_cons, List.filter_cons, hqa, hqfa]
        simp
      · rw [List.find?_cons_of_neg _ hp] at hfind
        rw [updateFirst, if_neg hp, List.filter_cons, List.filter_cons, ih hfind]

/-- A modification that preserves `g` leaves `l.map g` unchanged. -/
lemma map_updateFirst_preserve {α β : Type} (p : α → Bool) (f : α → α) (g : α → β)
    (l : List α) (hg : ∀ b, g (f b) = g b) : (updateFirst p f l).map g = l.map g := by
  induction l with
  | nil => rfl
  | cons z zs ih =>
      by_cases hp : p z
      · rw [updateFirst, if_pos hp, List.map_cons, List.map_cons, hg]
      · rw [updateFirst, if_neg hp, List.map_cons, List.map_cons, ih]

lemma memberYs_recenterGroup (X : List Node) (gid gid2 : Option ℕ)
    (hex : FlagsExclusive X) : memberYs (recenterGroup X gid) gid2 = memberYs X gid2 := by
  unfold recenterGroup
  cases hf : X.find? (groupPred gid) with
  | none => rfl
  | some gn =>
      dsimp only
      by_cases he : (memberYs X gid).isEmpty
      · rw [if_pos he]
      · rw [if_neg he]
        apply memberYs_updateFirst
        intro b hb hgp
        rw [groupPred, Bool.and_eq_true] at hgp
        have := (hex b hb).1 hgp.1
        simp [this]

lemma memberYs_recenterRoot (X : List Node) (gid2 : Option ℕ)
    (hex : FlagsExclusive X) : memberYs (recenterRoot X) gid2 = memberYs X gid2 := by
  unfold recenterRoot
  cases hf : X.find? rootPred with
  | none => rfl
  | some rn =>
      dsimp only
      by_cases he : (groupYsOf X).isEmpty
      · rw [if_pos he]
      · rw [if_neg he]
        apply memberYs_updateFirst
        intro b hb hrp
        have := ((hex b hb).2 hrp).1
        simp [this]

lemma groupYsOf_recenterRoot (X : List Node) (hex : FlagsExclusive X) :
    groupYsOf (recenterRoot X) = groupYsOf X := by
  unfold recenterRoot
  cases hf : X.find? rootPred with
  | none => rfl
  | some rn =>
      dsimp only
      by_cases he : (groupYsOf X).isEmpty
      · rw [if_pos he]
      · rw [if_neg he]
        apply groupYsOf_updateFirst
        intro b hb hrp
        exact ((hex b hb).2 hrp).2

/-- Every group node sits at the midpoint of (min, max) of its member steps'
current `y`-values (whenever it has member steps). -/
def AllGroupsCentered (X : List Node) : Prop :=
  ∀ n ∈ X, n.isGroup = true → memberYs X n.groupId ≠ [] →
    n.y = (listMin (memberYs X n.groupId) + listMax (memberYs X n.groupId)) / 2

/-- The root sits at the midpoint of (min, max) of the group nodes' current
`y`-values (whenever group nodes exist). -/
def RootCentered (X : List Node) : Prop :=
  ∀ n ∈ X, n.isRoot = true → groupYsOf X ≠ [] →
    n.y = (listMin (groupYsOf X) + listMax (groupYsOf X)) / 2

lemma recenterGroup_cases (X : List Node) (gid : Option ℕ) :
    (recenterGroup X gid = X ∧ (X.find? (groupPred gid) = none ∨ memberYs X gid = [])) ∨
    ∃ gn, X.find? (groupPred gid) = some gn ∧ memberYs X gid ≠ [] ∧
      recenterGroup X gid = updateFirst (groupPred gid)
        (fun n => { n with y := (listMin (memberYs X gid) + listMax (memberYs X gid)) / 2 })
        X := by
  unfold recenterGroup
  cases hf : X.find? (groupPred gid) with
  | none => exact Or.inl ⟨rfl, Or.inl rfl⟩
  | some gn =>
      dsimp only
      by_cases he : (memberYs X gid).isEmpty
      · rw [if_pos he]
        exact Or.inl ⟨rfl, Or.inr (List.isEmpty_iff.1 he)⟩
      · rw [if_neg he]
        exact Or.inr ⟨gn, rfl, fun hc => he (by rw [hc]; rfl), rfl⟩

lemma recenterRoot_cases (X : List Node) :
    (recenterRoot X = X ∧ (X.find? rootPred = none ∨ groupYsOf X = [])) ∨
    ∃ rn, X.find? rootPred = some rn ∧ groupYsOf X ≠ [] ∧
      recenterRoot X = updateFirst rootPred
        (fun n => { n with y := (listMin (groupYsOf X) + listMax (groupYsOf X)) / 2 }) X := by
  unfold recenterRoot
  cases hf : X.find? rootPred with
  | none => exact Or.inl ⟨rfl, Or.inl rfl⟩
  | some rn =>
      dsimp only
      by_cases he : (groupYsOf X).isEmpty
      · rw [if_pos he]
        exact Or.inl ⟨rfl, Or.inr (List.isEmpty_iff.1 he)⟩
      · rw [if_neg he]
        exact Or.inr ⟨rn, rfl, fun hc => he (by rw [hc]; rfl), rfl⟩

lemma map_recenterGroup {β : Type} (g : Node → β)
    (hg : ∀ (n : Node) (v : ℚ), g { n with y := v } = g n) (X : List Node) (gid : Option ℕ) :
    (recenterGroup X gid).map g = X.map g := by
  rcases recenterGroup_cases X gid with ⟨heq, -⟩ | ⟨gn, -, -, heq⟩
  · rw [heq]
  · rw [heq]
    exact map_updateFirst_preserve _ _ g X (fun b => hg b _)

lemma map_recenterRoot {β : Type} (g : Node → β)
    (hg : ∀ (n : Node) (v : ℚ), g { n with y := v } = g n) (X : List Node) :
    (recenterRoot X).map g = X.map g := by
  rcases recenterRoot_cases X with ⟨heq, -⟩ | ⟨rn, -, -, heq⟩
  · rw [heq]
  · rw [heq]
    exact map_updateFirst_preserve _ _ g X (fun b => hg b _)

lemma filter_map_eq_of_map_eq {α β : Type} (q : α → Bool) (g : α → β) (l1 l2 : List α)
    (h : l1.map (fun a => (q a, g a)) = l2.map (fun a => (q a, g a))) :
    (l1.filter q).map g = (l2.filter q).map g := by
  induction l1 generalizing l2 with
  | nil =>
      cases l2 with
      | nil => rfl
      | cons b l2 => simp at h
  | cons a l1 ih =>
      cases l2 with
      | nil => simp at h
      | cons b l2 =>
          rw [List.map_cons, List.map_cons] at h
          injection h with h1 h2
          injection h1 with hq hg1
          rw [List.filter_cons, List.filter_cons, ← hq]
          by_cases hqa : q a
          · rw [if_pos hqa, if_pos hqa]
            rw [List.map_cons, List.map_cons, hg1, ih l2 h2]
          · have hqa' : q a = false := Bool.eq_false_iff.2 hqa
            rw [hqa']
            simp only [Bool.false_eq_true, if_false]
            exact ih l2 h2

lemma length_filter_eq_of_map_eq {α : Type} (q : α → Bool) (l1 l2 : List α)
    (h : l1.map q = l2.map q) : (l1.filter q).length = (l2.filter q).length := by
  induction l1 generalizing l2 with
  | nil =>
      cases l2 with
      | nil => rfl
      | cons b l2 => simp at h
  | cons a l1 ih =>
      cases l2 with
      | nil => simp at h
      | cons b l2 =>
          rw [List.map_cons, List.map_cons] at h
          injection h with h1 h2
          rw [List.filter_cons, List.filter_cons, ← h1]
          by_cases hqa : q a
          · rw [if_pos hqa, if_pos hqa]
            rw [List.length_cons, List.length_cons, ih l2 h2]
          · have hqa' : q a = false := Bool.eq_false_iff.2 hqa
            rw [hqa']
            simp only [Bool.false_eq_true, if_false]
            exact ih l2 h2

lemma two_le_length_of_two_mem {α : Type} (l : List α) (a b : α)
    (ha : a ∈ l) (hb : b ∈ l) (hne : a ≠ b) : 2 ≤ l.length := by
  induction l with
  | nil => simp at ha
  | cons x xs ih =>
      rcases List.mem_cons.1 ha with rfl | ha2
      · rcases List.mem_cons.1 hb with rfl | hb2
        · exact absurd rfl hne
        · have : 1 ≤ xs.length := List.length_pos.2 (List.ne_nil_of_mem hb2)
          simp only [List.length_cons]
          omega
      · have : 1 ≤ xs.length := List.length_pos.2 (List.ne_nil_of_mem ha2)
        simp only [List.length_cons]
        omega

/-- The drag pipeline (pin step, recenter group, recenter root) restores the
centering invariants, assuming the app's structural discipline: exclusive
node flags, distinct node ids, at most one group node per `groupId`, and at
most one root. -/
lemma recenterPipeline_centered (X : List Node) (n0 : Node) (k : ℕ) (newY : ℚ)
    (hf : X.find? (stepPred k) = some n0)
    (hex : FlagsExclusive X)
    (hidnd : (X.map Node.id).Nodup)
    (hgidnd : ((X.filter (fun n => n.isGroup)).map Node.groupId).Nodup)
    (hroot1 : (X.filter rootPred).length ≤ 1)
    (hgc : AllGroupsCentered X) :
    AllGroupsCentered (recenterRoot (recenterGroup
      (updateFirst (stepPred k) (fun n => { n with y := newY }) X) n0.groupId)) ∧
    RootCentered (recenterRoot (recenterGroup
      (updateFirst (stepPred k) (fun n => { n with y := newY }) X) n0.groupId)) := by
  set N1 := updateFirst (stepPred k) (fun n => { n with y := newY }) X with hN1
  set N2 := recenterGroup N1 n0.groupId with hN2
  set N3 := recenterRoot N2 with hN3
  have hn0mem : n0 ∈ X := List.mem_of_find?_eq_some hf
  have hstep0 : n0.isStep = true := by
    have h := List.find?_some hf
    rw [stepPred, Bool.and_eq_true] at h
    exact h.1
  have hgrp0 : n0.isGroup = false := by
    cases hg0 : n0.isGroup with
    | false => rfl
    | true =>
        have h2 := (hex n0 hn0mem).1 hg0
        rw [hstep0] at h2
        exact absurd h2 (by decide)
  have hndX : X.Nodup := hidnd.of_map
  have hid1 : N1.map Node.id = X.map Node.id := by
    rw [hN1]
    exact map_updateFirst_preserve _ _ _ _ (fun b => rfl)
  have hid2 : N2.map Node.id = X.map Node.id := by
    rw [hN2, map_recenterGroup Node.id (fun n v => rfl) N1 n0.groupId, hid1]
  have hndN1 : N1.Nodup := by
    have h := hidnd
    rw [← hid1] at h
    exact h.of_map
  have hndN2 : N2.Nodup := by
    have h := hidnd
    rw [← hid2] at h
    exact h.of_map
  have hpair1 : N1.map (fun n => (n.isGroup, n.groupId))
      = X.map (fun n => (n.isGroup, n.groupId)) := by
    rw [hN1]
    exact map_updateFirst_preserve _ _ _ _ (fun b => rfl)
  have hgidnd1 : ((N1.filter (fun n => n.isGroup)).map Node.groupId).Nodup := by
    rw [filter_map_eq_of_map_eq (fun n => n.isGroup) Node.groupId N1 X hpair1]
    exact hgidnd
  have hrootmap1 : N1.map rootPred = X.map rootPred := by
    rw [hN1]
    exact map_updateFirst_preserve _ _ _ _ (fun b => rfl)
  have hrootmap2 : N2.map rootPred = X.map rootPred := by
    rw [hN2, map_recenterGroup rootPred (fun n v => rfl) N1 n0.groupId, hrootmap1]
  have hroot1N2 : (N2.filter rootPred).length ≤ 1 := by
    rw [length_filter_eq_of_map_eq rootPred N2 X hrootmap2]
    exact hroot1
  have hex1 : FlagsExclusive N1 := by
    rw [hN1]
    refine flagsExclusive_updateFirst _ _ ?_ _ hex
    intro n
    exact ⟨rfl, rfl, rfl⟩
  have hex2 : FlagsExclusive N2 := by
    rw [hN2]
    exact flagsExclusive_recenterGroup _ _ hex1
  have hmem32 : ∀ gid2, memberYs N3 gid2 = memberYs N2 gid2 := fun gid2 => by
    rw [hN3]
    exact memberYs_recenterRoot N2 gid2 hex2
  have hmem21 : ∀ gid2, memberYs N2 gid2 = memberYs N1 gid2 := fun gid2 => by
    rw [hN2]
    exact memberYs_recenterGroup N1 n0.groupId gid2 hex1
  have hmem10 : ∀ gid2, gid2 ≠ n0.groupId → memberYs N1 gid2 = memberYs X gid2 := by
    intro gid2 hneq
    rw [hN1]
    unfold memberYs
    refine congrArg (List.map Node.y) (filter_updateFirst_found _ _ _ _ n0 hf ?_ ?_)
    · show (n0.isStep && n0.groupId == gid2) = false
      have h1 : (n0.groupId == gid2) = false := by
        rw [beq_eq_false_iff_ne]
        exact Ne.symm hneq
      rw [h1, Bool.and_false]
    · show (n0.isStep && n0.groupId == gid2) = false
      have h1 : (n0.groupId == gid2) = false := by
        rw [beq_eq_false_iff_ne]
        exact Ne.symm hneq
      rw [h1, Bool.and_false]
  have hgys32 : groupYsOf N3 = groupYsOf N2 := by
    rw [hN3]
    exact groupYsOf_recenterRoot N2 hex2
  have huntouched : ∀ n : Node, n ∈ N1 → n.isGroup = true → n.groupId ≠ n0.groupId →
      memberYs N3 n.groupId ≠ [] →
      n.y = (listMin (memberYs N3 n.groupId) + listMax (memberYs N3 n.groupId)) / 2 := by
    intro n hn1 hgrp hgid hne
    have hchain : memberYs N3 n.groupId = memberYs X n.groupId := by
      rw [hmem32, hmem21, hmem10 _ hgid]
    rw [hchain] at hne ⊢
    rw [hN1] at hn1
    rcases (mem_updateFirst_iff _ _ X n0 hndX hf n).1 hn1 with ⟨h1, -⟩ | h1
    · exact hgc n h1 hgrp hne
    · exfalso
      rw [h1] at hgrp
      have h2 : n0.isGroup = true := hgrp
      rw [hgrp0] at h2
      exact absurd h2 (by decide)
  constructor
  · intro n hn hgrp hne
    have hnN2 : n ∈ N2 := by
      rcases recenterRoot_cases N2 with ⟨heq, -⟩ | ⟨rn, hfr, -, heq⟩
      · rw [hN3, heq] at hn
        exact hn
      · rw [hN3, heq] at hn
        rcases (mem_updateFirst_iff rootPred _ N2 rn hndN2 hfr n).1 hn with ⟨h1, -⟩ | h1
        · exact h1
        · exfalso
          have hrn : rn ∈ N2 := List.mem_of_find?_eq_some hfr
          have hrnroot : rn.isRoot = true := List.find?_some hfr
          have hg : n.isGroup = false := by
            rw [h1]
            exact ((hex2 rn hrn).2 hrnroot).2
          rw [hg] at hgrp
          exact absurd hgrp (by decide)
    rcases recenterGroup_cases N1 n0.groupId with ⟨heq2, hside⟩ | ⟨gn, hfg, hmemne, heq2⟩
    · have hnN1 : n ∈ N1 := by
        rw [hN2, heq2] at hnN2
        exact hnN2
      by_cases hgid : n.groupId = n0.groupId
      · exfalso
        rcases hside with hnone | hempty
        · have hp : groupPred n0.groupId n = true := by
            rw [groupPred, hgrp, hgid]
            simp
          exact (List.find?_eq_none.1 hnone n hnN1) hp
        · apply hne
          rw [hmem32, hmem21, hgid]
          exact hempty
      · exact huntouched n hnN1 hgrp hgid hne
    · have hnN2' : n ∈ updateFirst (groupPred n0.groupId)
          (fun m => { m with
            y := (listMin (memberYs N1 n0.groupId) + listMax (memberYs N1 n0.groupId)) / 2 })
          N1 := by
        rw [← heq2, ← hN2]
        exact hnN2
      rcases (mem_updateFirst_iff _ _ N1 gn hndN1 hfg n).1 hnN2' with ⟨h1, hne1⟩ | h1
      · by_cases hgid : n.groupId = n0.groupId
        · exfalso
          have hgnmem : gn ∈ N1 := List.mem_of_find?_eq_some hfg
          have hgn := List.find?_some hfg
          rw [groupPred, Bool.and_eq_true] at hgn
          have hgngid : gn.groupId = n0.groupId := eq_of_beq hgn.2
          have hnfil : n ∈ N1.filter (fun m => m.isGroup) := by
            rw [List.mem_filter]
            exact ⟨h1, hgrp⟩
          have hgnfil : gn ∈ N1.filter (fun m => m.isGroup) := by
            rw [List.mem_filter]
            exact ⟨hgnmem, hgn.1⟩
          exact hne1 (List.inj_on_of_nodup_map hgidnd1 hnfil hgnfil
            (by rw [hgid, hgngid]))
        · exact huntouched n h1 hgrp hgid hne
      · have hgn := List.find?_some hfg
        rw [groupPred, Bool.and_eq_true] at hgn
        have hgngid : gn.groupId = n0.groupId := eq_of_beq hgn.2
        have hngid : n.groupId = n0.groupId := by
          rw [h1]
          exact hgngid
        have hny : n.y
            = (listMin (memberYs N1 n0.groupId) + listMax (memberYs N1 n0.groupId)) / 2 := by
          rw [h1]
        rw [hmem32, hmem21, hngid]
        exact hny
  · intro n hn hroot hgys
    rcases recenterRoot_cases N2 with ⟨heq, hside⟩ | ⟨rn, hfr, hne', heq⟩
    · have hnN2 : n ∈ N2 := by
        rw [hN3, heq] at hn
        exact hn
      rcases hside with hnone | hempty
      · exact absurd hroot (List.find?_eq_none.1 hnone n hnN2)
      · exfalso
        apply hgys
        rw [hgys32]
        exact hempty
    · have hn3 : n ∈ updateFirst rootPred
          (fun m => { m with
            y := (listMin (groupYsOf N2) + listMax (groupYsOf N2)) / 2 }) N2 := by
        rw [← heq, ← hN3]
        exact hn
      rcases (mem_updateFirst_iff _ _ N2 rn hndN2 hfr n).1 hn3 with ⟨h1, hne1⟩ | h1
      · exfalso
        have hrn : rn ∈ N2 := List.mem_of_find?_eq_some hfr
        have hrnroot : rootPred rn = true := List.find?_some hfr
        have hnfil : n ∈ N2.filter rootPred := by
          rw [List.mem_filter]
          exact ⟨h1, hroot⟩
        have hrnfil : rn ∈ N2.filter rootPred := by
          rw [List.mem_filter]
          exact ⟨hrn, hrnroot⟩
        have h2 := two_le_length_of_two_mem (N2.filter rootPred) n rn hnfil hrnfil hne1
        omega
      · rw [hgys32, h1]

/-- `dragStep` restores the centering invariants under the same structural
discipline. -/
lemma dragStep_centered (st : GraphState) (k : ℕ) (newY : ℚ)
    (hex : FlagsExclusive st.nodes)
    (hidnd : (st.nodes.map Node.id).Nodup)
    (hgidnd : ((st.nodes.filter (fun n => n.isGroup)).map Node.groupId).Nodup)
    (hroot1 : (st.nodes.filter rootPred).length ≤ 1)
    (hgc : AllGroupsCentered st.nodes)
    (hrc : RootCentered st.nodes) :
    AllGroupsCentered (dragStep st k newY).nodes
      ∧ RootCentered (dragStep st k newY).nodes := by
  cases hf : st.nodes.find? (stepPred k) with
  | none =>
      have h1 : dragStep st k newY = st := by
        unfold dragStep
        rw [hf]
      rw [h1]
      exact ⟨hgc, hrc⟩
  | some n0 =>
      rw [dragStep_of_find st k newY n0 hf]
      exact recenterPipeline_centered st.nodes n0 k newY hf hex hidnd hgidnd hroot1 hgc

/-! ## Structural invariant of the computed layout

To apply the drag lemmas to a layout produced by `calculateTreeLayout`, we
establish the structural discipline of its node table by induction over the
group fold.  The named components below are definitional abbreviations for
the pieces of `layoutFold`'s body. -/

/-- The step nodes pushed for one group (the `gSteps.forEach`). -/
def stepNodesOf (steps : List Step) (grp : Group) (gi : ℕ) (Y : ℚ) : List Node :=
  ((gStepsSorted steps grp.id).enumFrom 0).map (fun sis => mkStepNode grp gi Y sis.1 sis.2)

/-- `contentH` of one group's swimlane. -/
def contentHOf (steps : List Step) (parts : List Part) (grp : Group) : ℚ :=
  max ((max (((gStepsSorted steps grp.id).length : ℕ) : ℚ)
      ((⌈(((gStepsSorted steps grp.id).foldl
        (fun mx s => max mx (parts.filter (fun p => p.step_id == s.id)).length) 0 : ℕ) : ℚ)
        * (7/10)⌉ : ℤ) : ℚ)) * VERTICAL_GAP)
    (VERTICAL_GAP * (3/2))

/-- `swimH` of one group's swimlane. -/
def swimHOf (steps : List Step) (parts : List Part) (grp : Group) : ℚ :=
  contentHOf steps parts grp + swimPadY * 2

/-- The `stepYs` array: the freshly pushed step nodes looked up by id. -/
def stepYsOf (steps : List Step) (old : List Node) (grp : Group) (gi : ℕ) (Y : ℚ) : List ℚ :=
  (gStepsSorted steps grp.id).map (fun s =>
    ((findNode (old ++ stepNodesOf steps grp gi Y) (NodeId.step s.id)).map Node.y).getD 0)

/-- The group node pushed after the steps of one group. -/
def groupNodeOf (steps : List Step) (parts : List Part) (old : List Node) (gcx : ℚ)
    (grp : Group) (gi : ℕ) (Y : ℚ) : Node :=
  { id := .group grp.id
    dbId := none
    x := gcx
    y := if (stepYsOf steps old grp gi Y).isEmpty then Y + swimHOf steps parts grp / 2
      else (listMin (stepYsOf steps old grp gi Y) + listMax (stepYsOf steps old grp gi Y)) / 2
    w := NODE_WIDTH + 20
    h := NODE_HEIGHT + 8
    groupId := some grp.id
    isStep := false
    isGroup := true
    isRoot := false
    swimIdx := gi }

/-- The swimlane record pushed for one group. -/
def swimlaneOf (steps : List Step) (parts : List Part) (grp : Group) (gi : ℕ) (Y : ℚ) :
    Swimlane :=
  { grp := grp
    gi := gi
    startY := Y
    height := swimHOf steps parts grp
    stepCount := (gStepsSorted steps grp.id).length }

/-- `layoutFold` written out in terms of the named components. -/
lemma layoutFold_eq (steps : List Step) (parts : List Part) (fasts : List Fastener)
    (gcx : ℚ) (acc : LayoutAcc) (gi : ℕ) (grp : Group) :
    layoutFold steps parts fasts gcx acc (gi, grp) =
    { allNodes := (acc.allNodes ++ stepNodesOf steps grp gi acc.curY)
        ++ [groupNodeOf steps parts acc.allNodes gcx grp gi acc.curY]
      allLinks := acc.allLinks ++ (gStepsSorted steps grp.id).map (mkStepGroupLink fasts grp)
        ++ [groupRootLink grp]
      swimlanes := acc.swimlanes ++ [swimlaneOf steps parts grp gi acc.curY]
      curY := acc.curY + swimHOf steps parts grp + swimGap } := rfl

lemma find?_append_of_none {α : Type} (p : α → Bool) (l1 l2 : List α)
    (h : l1.find? p = none) : (l1 ++ l2).find? p = l2.find? p := by
  induction l1 with
  | nil => rfl
  | cons x xs ih =>
      by_cases hp : p x
      · rw [List.find?_cons_of_pos _ hp] at h
        cases h
      · rw [List.find?_cons_of_neg _ hp] at h
        rw [List.cons_append, List.find?_cons_of_neg _ hp]
        exact ih h

lemma findNode_skip (old rest : List Node) (nid : NodeId)
    (h : ∀ n ∈ old, n.id ≠ nid) : findNode (old ++ rest) nid = findNode rest nid := by
  unfold findNode
  apply find?_append_of_none
  rw [List.find?_eq_none]
  intro n hn
  simp only [beq_iff_eq]
  exact h n hn

/-- Looking the freshly pushed step nodes up by id reads back exactly their
`y`-values, provided the step ids are distinct and absent from the older
nodes. -/
lemma stepYs_go (grp : Group) (gi : ℕ) (Y : ℚ) (gS : List Step) :
    ∀ (old : List Node) (j : ℕ),
    (gS.map Step.id).Nodup →
    (∀ n ∈ old, ∀ s ∈ gS, n.id ≠ NodeId.step s.id) →
    gS.map (fun s =>
      ((findNode (old ++ (gS.enumFrom j).map
        (fun sis => mkStepNode grp gi Y sis.1 sis.2)) (NodeId.step s.id)).map Node.y).getD 0)
    = ((gS.enumFrom j).map (fun sis => mkStepNode grp gi Y sis.1 sis.2)).map Node.y := by
  induction gS with
  | nil =>
      intro old j _ _
      rfl
  | cons s rest ih =>
      intro old j hnd hfresh
      simp only [List.enumFrom_cons, List.map_cons]
      congr 1
      · rw [findNode_skip old _ _ (fun n hn => hfresh n hn s (List.mem_cons_self s rest))]
        have hpos : ((mkStepNode grp gi Y j s).id == NodeId.step s.id) = true :=
          beq_self_eq_true _
        unfold findNode
        simp only [List.find?_cons, hpos]
        rfl
      · rw [List.append_cons]
        rw [List.map_cons, List.nodup_cons] at hnd
        refine ih (old ++ [mkStepNode grp gi Y j s]) (j + 1) hnd.2 ?_
        intro n hn s' hs'
        rcases List.mem_append.1 hn with hn | hn
        · exact hfresh n hn s' (List.mem_cons_of_mem s hs')
        · rw [List.mem_singleton] at hn
          subst hn
          show NodeId.step s.id ≠ NodeId.step s'.id
          intro hcon
          have hid : s.id = s'.id := by injection hcon
          exact hnd.1 (by rw [hid]; exact List.mem_map_of_mem Step.id hs')

lemma memberYs_append (l1 l2 : List Node) (gid : Option ℕ) :
    memberYs (l1 ++ l2) gid = memberYs l1 gid ++ memberYs l2 gid := by
  unfold memberYs
  rw [List.filter_append, List.map_append]

lemma stepNodesOf_facts (steps : List Step) (grp : Group) (gi : ℕ) (Y : ℚ) :
    ∀ n ∈ stepNodesOf steps grp gi Y,
      n.isStep = true ∧ n.isGroup = false ∧ n.isRoot = false ∧ n.x = stepColX ∧
      n.groupId = some grp.id ∧
      ∃ s, s ∈ gStepsSorted steps grp.id ∧ n.id = NodeId.step s.id ∧ n.dbId = some s.id := by
  intro n hn
  unfold stepNodesOf at hn
  rcases List.mem_map.1 hn with ⟨sis, hsis, rfl⟩
  refine ⟨rfl, rfl, rfl, rfl, rfl, sis.2, ?_, rfl, rfl⟩
  rw [← enumFrom_map_snd 0 (gStepsSorted steps grp.id)]
  exact List.mem_map_of_mem Prod.snd hsis

lemma stepNodesOf_ids (steps : List Step) (grp : Group) (gi : ℕ) (Y : ℚ) :
    (stepNodesOf steps grp gi Y).map Node.id
      = (gStepsSorted steps grp.id).map (fun s => NodeId.step s.id) := by
  unfold stepNodesOf
  have h2 := congrArg (List.map (fun s : Step => NodeId.step s.id))
    (enumFrom_map_snd 0 (gStepsSorted steps grp.id))
  rw [List.map_map] at h2
  rw [List.map_map]
  exact h2

lemma stepNodesOf_length (steps : List Step) (grp : Group) (gi : ℕ) (Y : ℚ) :
    (stepNodesOf steps grp gi Y).length = (gStepsSorted steps grp.id).length := by
  unfold stepNodesOf
  simp

lemma memberYs_stepNodesOf_self (steps : List Step) (grp : Group) (gi : ℕ) (Y : ℚ) :
    memberYs (stepNodesOf steps grp gi Y) (some grp.id)
      = (stepNodesOf steps grp gi Y).map Node.y := by
  unfold memberYs
  have h : (stepNodesOf steps grp gi Y).filter (fun n => n.isStep && n.groupId == some grp.id)
      = stepNodesOf steps grp gi Y := by
    rw [List.filter_eq_self]
    intro n hn
    obtain ⟨h1, -, -, -, h5, -⟩ := stepNodesOf_facts steps grp gi Y n hn
    rw [h1, h5]
    simp
  rw [h]

lemma memberYs_stepNodesOf_other (steps : List Step) (grp : Group) (gi : ℕ) (Y : ℚ)
    (gid : Option ℕ) (h : gid ≠ some grp.id) :
    memberYs (stepNodesOf steps grp gi Y) gid = [] := by
  unfold memberYs
  have h1 : (stepNodesOf steps grp gi Y).filter (fun n => n.isStep && n.groupId == gid)
      = [] := by
    rw [List.filter_eq_nil_iff]
    intro n hn
    obtain ⟨-, -, -, -, h5, -⟩ := stepNodesOf_facts steps grp gi Y n hn
    simp only [Bool.and_eq_true, beq_iff_eq, not_and]
    intro _ hcon
    rw [h5] at hcon
    exact h hcon.symm
  rw [h1]
  rfl

lemma memberYs_groupNodeOf (steps : List Step) (parts : List Part) (old : List Node)
    (gcx : ℚ) (grp : Group) (gi : ℕ) (Y : ℚ) (gid : Option ℕ) :
    memberYs [groupNodeOf steps parts old gcx grp gi Y] gid = [] := rfl

/-- The structural invariant maintained by the group fold of
`calculateTreeLayout`: after processing the groups `pr`, every node is either
a step node of a processed group (pinned to the step column) or a processed
group's group node; node ids are distinct; exactly one group node exists per
processed group; no root exists yet; and every group node sits at the centroid
of its member steps, or at its band's vertical center when it has none. -/
structure LayoutInv (steps : List Step) (pr : List Group) (acc : LayoutAcc) : Prop where
  flags : ∀ n ∈ acc.allNodes,
    (n.isStep = true ∧ n.isGroup = false ∧ n.isRoot = false) ∨
    (n.isStep = false ∧ n.isGroup = true ∧ n.isRoot = false)
  step_chr : ∀ n ∈ acc.allNodes, n.isStep = true →
    n.x = stepColX ∧ ∃ s ∈ steps, n.id = NodeId.step s.id ∧ n.dbId = some s.id ∧
      n.groupId = some s.group_id ∧ s.group_id ∈ pr.map Group.id
  grp_chr : ∀ n ∈ acc.allNodes, n.isGroup = true →
    ∃ g ∈ pr, n.id = NodeId.group g.id ∧ n.groupId = some g.id
  ids_nodup : (acc.allNodes.map Node.id).Nodup
  grp_ids : (acc.allNodes.filter (fun n => n.isGroup)).map Node.groupId
    = pr.map (fun g => some g.id)
  centred : ∀ n ∈ acc.allNodes, n.isGroup = true →
    (memberYs acc.allNodes n.groupId ≠ [] →
      n.y = (listMin (memberYs acc.allNodes n.groupId)
        + listMax (memberYs acc.allNodes n.groupId)) / 2) ∧
    (memberYs acc.allNodes n.groupId = [] →
      ∃ sl ∈ acc.swimlanes, n.groupId = some sl.grp.id ∧ sl.stepCount = 0 ∧
        n.y = sl.startY + sl.height / 2)

lemma layoutInv_step (steps : List Step) (parts : List Part) (fasts : List Fastener)
    (gcx : ℚ) (pr : List Group) (acc : LayoutAcc) (grp : Group) (gi : ℕ)
    (hsnd : (steps.map Step.id).Nodup)
    (hfresh : grp.id ∉ pr.map Group.id)
    (hinv : LayoutInv steps pr acc) :
    LayoutInv steps (pr ++ [grp]) (layoutFold steps parts fasts gcx acc (gi, grp)) := by
  rw [layoutFold_eq]
  have hgSnd : ((gStepsSorted steps grp.id).map Step.id).Nodup := by
    have h2 := (stableSortByKey_perm stepKey
      (steps.filter (fun s => s.group_id == grp.id))).map Step.id
    exact h2.nodup_iff.2
      (List.Pairwise.sublist (List.Sublist.map Step.id (List.filter_sublist steps)) hsnd)
  have hgS_mem : ∀ s ∈ gStepsSorted steps grp.id, s ∈ steps ∧ s.group_id = grp.id := by
    intro s hs
    have h1 : s ∈ steps.filter (fun s2 => s2.group_id == grp.id) :=
      (mem_stableSortByKey stepKey _ s).1 hs
    rw [List.mem_filter] at h1
    exact ⟨h1.1, by simpa using h1.2⟩
  have hold_step : ∀ n ∈ acc.allNodes, ∀ s ∈ gStepsSorted steps grp.id,
      n.id ≠ NodeId.step s.id := by
    intro n hn s hs hcon
    rcases hinv.flags n hn with ⟨h1, -, -⟩ | ⟨-, h2, -⟩
    · obtain ⟨-, s', hs', hid', -, -, hgidmem⟩ := hinv.step_chr n hn h1
      rw [hid'] at hcon
      have hsid : s'.id = s.id := by injection hcon
      have hss : s' = s := List.inj_on_of_nodup_map hsnd hs' (hgS_mem s hs).1 hsid
      rw [hss, (hgS_mem s hs).2] at hgidmem
      exact hfresh hgidmem
    · obtain ⟨g, -, hid', -⟩ := hinv.grp_chr n hn h2
      rw [hid'] at hcon
      cases hcon
  have hold_grp : ∀ n ∈ acc.allNodes, n.id ≠ NodeId.group grp.id := by
    intro n hn hcon
    rcases hinv.flags n hn with ⟨h1, -, -⟩ | ⟨-, h2, -⟩
    · obtain ⟨-, s', -, hid', -, -, -⟩ := hinv.step_chr n hn h1
      rw [hid'] at hcon
      cases hcon
    · obtain ⟨g, hg, hid', -⟩ := hinv.grp_chr n hn h2
      rw [hid'] at hcon
      have hgid : g.id = grp.id := by injection hcon
      exact hfresh (hgid ▸ List.mem_map_of_mem Group.id hg)
  have hstepYs : stepYsOf steps acc.allNodes grp gi acc.curY
      = (stepNodesOf steps grp gi acc.curY).map Node.y :=
    stepYs_go grp gi acc.curY (gStepsSorted steps grp.id) acc.allNodes 0 hgSnd hold_step
  have hmemA : memberYs acc.allNodes (some grp.id) = [] := by
    unfold memberYs
    have h1 : acc.allNodes.filter (fun n => n.isStep && n.groupId == some grp.id) = [] := by
      rw [List.filter_eq_nil_iff]
      intro n hn
      simp only [Bool.and_eq_true, beq_iff_eq, not_and]
      intro hstep hgid
      obtain ⟨-, s', -, -, -, hgid', hgidmem⟩ := hinv.step_chr n hn hstep
      rw [hgid'] at hgid
      have hsg : s'.group_id = grp.id := by injection hgid
      exact hfresh (hsg ▸ hgidmem)
    rw [h1]
    rfl
  have hmem_full_self : memberYs ((acc.allNodes ++ stepNodesOf steps grp gi acc.curY)
      ++ [groupNodeOf steps parts acc.allNodes gcx grp gi acc.curY]) (some grp.id)
      = (stepNodesOf steps grp gi acc.curY).map Node.y := by
    rw [memberYs_append, memberYs_append, hmemA, memberYs_stepNodesOf_self,
      memberYs_groupNodeOf]
    simp
  have hmem_full_other : ∀ gid : Option ℕ, gid ≠ some grp.id →
      memberYs ((acc.allNodes ++ stepNodesOf steps grp gi acc.curY)
        ++ [groupNodeOf steps parts acc.allNodes gcx grp gi acc.curY]) gid
      = memberYs acc.allNodes gid := by
    intro gid h
    rw [memberYs_append, memberYs_append,
      memberYs_stepNodesOf_other steps grp gi acc.curY gid h, memberYs_groupNodeOf]
    simp
  have hGfacts : (groupNodeOf steps parts acc.allNodes gcx grp gi acc.curY).isStep = false ∧
      (groupNodeOf steps parts acc.allNodes gcx grp gi acc.curY).isGroup = true ∧
      (groupNodeOf steps parts acc.allNodes gcx grp gi acc.curY).isRoot = false ∧
      (groupNodeOf steps parts acc.allNodes gcx grp gi acc.curY).id = NodeId.group grp.id ∧
      (groupNodeOf steps parts acc.allNodes gcx grp gi acc.curY).groupId = some grp.id :=
    ⟨rfl, rfl, rfl, rfl, rfl⟩
  refine ⟨?_, ?_, ?_, ?_, ?_, ?_⟩
  · dsimp only
    intro n hn
    rcases List.mem_append.1 hn with hn | hn
    · rcases List.mem_append.1 hn with hn | hn
      · exact hinv.flags n hn
      · obtain ⟨h1, h2, h3, -, -, -⟩ := stepNodesOf_facts steps grp gi acc.curY n hn
        exact Or.inl ⟨h1, h2, h3⟩
    · rw [List.mem_singleton] at hn
      subst hn
      exact Or.inr ⟨hGfacts.1, hGfacts.2.1, hGfacts.2.2.1⟩
  · dsimp only
    intro n hn hstep
    rcases List.mem_append.1 hn with hn | hn
    · rcases List.mem_append.1 hn with hn | hn
      · obtain ⟨hx, s', hs', h1, h2, h3, h4⟩ := hinv.step_chr n hn hstep
        exact ⟨hx, s', hs', h1, h2, h3, by rw [List.map_append]; exact List.mem_append_left _ h4⟩
      · obtain ⟨-, -, -, hx, hgid, s', hs', hid, hdb⟩ :=
          stepNodesOf_facts steps grp gi acc.curY n hn
        refine ⟨hx, s', (hgS_mem s' hs').1, hid, hdb, ?_, ?_⟩
        · rw [hgid, (hgS_mem s' hs').2]
        · rw [List.map_append, (hgS_mem s' hs').2]
          exact List.mem_append_right _ (by simp)
    · rw [List.mem_singleton] at hn
      subst hn
      rw [hGfacts.1] at hstep
      exact absurd hstep (by decide)
  · dsimp only
    intro n hn hgrp
    rcases List.mem_append.1 hn with hn | hn
    · rcases List.mem_append.1 hn with hn | hn
      · obtain ⟨g, hg, h1, h2⟩ := hinv.grp_chr n hn hgrp
        exact ⟨g, List.mem_append_left _ hg, h1, h2⟩
      · obtain ⟨-, h2, -, -, -, -⟩ := stepNodesOf_facts steps grp gi acc.curY n hn
        rw [h2] at hgrp
        exact absurd hgrp (by decide)
    · rw [List.mem_singleton] at hn
      subst hn
      exact ⟨grp, List.mem_append_right _ (by simp), hGfacts.2.2.2.1, hGfacts.2.2.2.2⟩
  · dsimp only
    rw [List.map_append, List.map_append, List.nodup_append, List.nodup_append]
    refine ⟨⟨hinv.ids_nodup, ?_, ?_⟩, by simp, ?_⟩
    · rw [stepNodesOf_ids]
      have hmm : (gStepsSorted steps grp.id).map (fun s => NodeId.step s.id)
          = ((gStepsSorted steps grp.id).map Step.id).map NodeId.step := by
        rw [List.map_map]
        rfl
      rw [hmm]
      refine hgSnd.map ?_
      intro a b h
      injection h
    · intro a ha hb
      rw [stepNodesOf_ids] at hb
      rcases List.mem_map.1 ha with ⟨n, hn, rfl⟩
      rcases List.mem_map.1 hb with ⟨s, hs, hcon⟩
      exact hold_step n hn s hs hcon.symm
    · intro a ha hb
      rw [List.map_singleton, hGfacts.2.2.2.1, List.mem_singleton] at hb
      subst hb
      rcases List.mem_append.1 ha with ha | ha
      · rcases List.mem_map.1 ha with ⟨n, hn, hcon⟩
        exact hold_grp n hn hcon
      · rw [stepNodesOf_ids] at ha
        rcases List.mem_map.1 ha with ⟨s, hs, hcon⟩
        cases hcon
  · dsimp only
    rw [List.filter_append, List.filter_append]
    have h1 : (stepNodesOf steps grp gi acc.curY).filter (fun n => n.isGroup) = [] := by
      rw [List.filter_eq_nil_iff]
      intro n hn
      obtain ⟨-, h2, -, -, -, -⟩ := stepNodesOf_facts steps grp gi acc.curY n hn
      simp [h2]
    have h2 : ([groupNodeOf steps parts acc.allNodes gcx grp gi acc.curY]).filter
        (fun n => n.isGroup)
        = [groupNodeOf steps parts acc.allNodes gcx grp gi acc.curY] := by
      rw [List.filter_eq_self]
      intro n hn
      rw [List.mem_singleton] at hn
      subst hn
      exact hGfacts.2.1
    rw [h1, h2, List.append_nil, List.map_append, hinv.grp_ids, List.map_append,
      List.map_singleton, List.map_singleton, hGfacts.2.2.2.2]
  · dsimp only
    intro n hn hgrp
    rcases List.mem_append.1 hn with hn | hn
    · rcases List.mem_append.1 hn with hn | hn
      · obtain ⟨g, hg, -, hgid⟩ := hinv.grp_chr n hn hgrp
        have hne : n.groupId ≠ some grp.id := by
          rw [hgid]
          intro hcon
          have hgid2 : g.id = grp.id := by injection hcon
          exact hfresh (hgid2 ▸ List.mem_map_of_mem Group.id hg)
        rw [hmem_full_other n.groupId hne]
        obtain ⟨hc1, hc2⟩ := hinv.centred n hn hgrp
        refine ⟨hc1, ?_⟩
        intro hemp
        obtain ⟨sl, hsl, ha, hb, hc⟩ := hc2 hemp
        exact ⟨sl, List.mem_append_left _ hsl, ha, hb, hc⟩
      · obtain ⟨-, h2, -, -, -, -⟩ := stepNodesOf_facts steps grp gi acc.curY n hn
        rw [h2] at hgrp
        exact absurd hgrp (by decide)
    · rw [List.mem_singleton] at hn
      subst hn
      rw [hGfacts.2.2.2.2, hmem_full_self]
      constructor
      · intro hne
        show (if (stepYsOf steps acc.allNodes grp gi acc.curY).isEmpty
            then acc.curY + swimHOf steps parts grp / 2
            else (listMin (stepYsOf steps acc.allNodes grp gi acc.curY)
              + listMax (stepYsOf steps acc.allNodes grp gi acc.curY)) / 2)
          = (listMin ((stepNodesOf steps grp gi acc.curY).map Node.y)
            + listMax ((stepNodesOf steps grp gi acc.curY).map Node.y)) / 2
        rw [hstepYs]
        have hcond : ¬((stepNodesOf steps grp gi acc.curY).map Node.y).isEmpty = true := by
          rw [List.isEmpty_iff]
          exact hne
        rw [if_neg hcond]
      · intro hemp
        refine ⟨swimlaneOf steps parts grp gi acc.curY,
          List.mem_append_right _ (by simp), rfl, ?_, ?_⟩
        · show (gStepsSorted steps grp.id).length = 0
          have h0 : (stepNodesOf steps grp gi acc.curY).length = 0 := by
            have hlen := congrArg List.length hemp
            rw [List.length_map] at hlen
            simpa using hlen
          rw [← stepNodesOf_length steps grp gi acc.curY]
          exact h0
        · show (if (stepYsOf steps acc.allNodes grp gi acc.curY).isEmpty
              then acc.curY + swimHOf steps parts grp / 2
              else (listMin (stepYsOf steps acc.allNodes grp gi acc.curY)
                + listMax (stepYsOf steps acc.allNodes grp gi acc.curY)) / 2)
            = acc.curY + swimHOf steps parts grp / 2
          rw [hstepYs, hemp]
          rfl

lemma layoutInv_fold (steps : List Step) (parts : List Part) (fasts : List Fastener) (gcx : ℚ)
    (hsnd : (steps.map Step.id).Nodup) :
    ∀ (gl : List Group) (pr : List Group) (j : ℕ) (acc : LayoutAcc),
    ((pr ++ gl).map Group.id).Nodup →
    LayoutInv steps pr acc →
    LayoutInv steps (pr ++ gl)
      ((gl.enumFrom j).foldl (layoutFold steps parts fasts gcx) acc) := by
  intro gl
  induction gl with
  | nil =>
      intro pr j acc hnd hinv
      simpa using hinv
  | cons grp rest ih =>
      intro pr j acc hnd hinv
      have hfresh : grp.id ∉ pr.map Group.id := by
        intro hmem
        rw [List.map_append] at hnd
        exact (List.nodup_append.1 hnd).2.2 hmem (by simp)
      have hstep := layoutInv_step steps parts fasts gcx pr acc grp j hsnd hfresh hinv
      have hnd' : (((pr ++ [grp]) ++ rest).map Group.id).Nodup := by
        rw [List.append_assoc]
        simpa using hnd
      have hres := ih (pr ++ [grp]) (j + 1)
        (layoutFold steps parts fasts gcx acc (j, grp)) hnd' hstep
      rw [List.append_assoc] at hres
      simpa using hres

lemma layoutInv_nil (steps : List Step) :
    LayoutInv steps []
      { allNodes := [], allLinks := [], swimlanes := [], curY := topPad + headerH } := by
  refine ⟨?_, ?_, ?_, ?_, ?_, ?_⟩ <;> simp

/-- The root node pushed by `layoutCore` after the group fold. -/
def rootNodeOf (acc : LayoutAcc) (rcx : ℚ) : Node :=
  { id := .root
    dbId := none
    x := rcx
    y := if (groupYsOf acc.allNodes).isEmpty then topPad + headerH
      else (listMin (groupYsOf acc.allNodes) + listMax (groupYsOf acc.allNodes)) / 2
    w := NODE_WIDTH + 40
    h := NODE_HEIGHT + 16
    groupId := none
    isStep := false
    isGroup := false
    isRoot := true
    swimIdx := 0 }

lemma layoutCore_nodes (inp : LayoutInput) :
    (layoutCore inp).nodes = (layoutAccOf inp).allNodes
      ++ [rootNodeOf (layoutAccOf inp) (stepColX + inp.gap1 + inp.gap2)] := rfl

lemma layoutCore_swimlanes (inp : LayoutInput) :
    (layoutCore inp).swimlanes = (layoutAccOf inp).swimlanes := rfl

lemma filteredGroupsOf_ids_nodup (inp : LayoutInput)
    (hgnd : (inp.groups.map Group.id).Nodup) :
    ((filteredGroupsOf inp).map Group.id).Nodup := by
  have hsort : ((stableSortByKey groupKey inp.groups).map Group.id).Nodup :=
    ((stableSortByKey_perm groupKey inp.groups).map Group.id).nodup_iff.2 hgnd
  unfold filteredGroupsOf
  cases inp.visibleGroupIds with
  | none => exact hsort
  | some vis =>
      exact List.Pairwise.sublist (List.Sublist.map Group.id (List.filter_sublist _)) hsort

/-- The structural facts the drag lemmas need, for any layout actually
produced by the group fold plus root step of `calculateTreeLayout`. -/
lemma layoutCore_facts (inp : LayoutInput)
    (hgnd : (inp.groups.map Group.id).Nodup)
    (hsnd : (inp.steps.map Step.id).Nodup) :
    FlagsExclusive (layoutCore inp).nodes ∧
    ((layoutCore inp).nodes.map Node.id).Nodup ∧
    (((layoutCore inp).nodes.filter (fun n => n.isGroup)).map Node.groupId).Nodup ∧
    ((layoutCore inp).nodes.filter rootPred).length ≤ 1 ∧
    AllGroupsCentered (layoutCore inp).nodes ∧
    RootCentered (layoutCore inp).nodes ∧
    (∀ n ∈ (layoutCore inp).nodes, n.isStep = true → n.x = stepColX) ∧
    (∀ n ∈ (layoutCore inp).nodes, n.isGroup = true →
      memberYs (layoutCore inp).nodes n.groupId = [] →
      ∃ sl ∈ (layoutCore inp).swimlanes, n.groupId = some sl.grp.id ∧ sl.stepCount = 0 ∧
        n.y = sl.startY + sl.height / 2) := by
  have hInv : LayoutInv inp.steps (filteredGroupsOf inp) (layoutAccOf inp) := by
    have h := layoutInv_fold inp.steps inp.parts inp.fasts (stepColX + inp.gap1) hsnd
      (filteredGroupsOf inp) [] 0
      { allNodes := [], allLinks := [], swimlanes := [], curY := topPad + headerH }
      (by simpa using filteredGroupsOf_ids_nodup inp hgnd) (layoutInv_nil inp.steps)
    have h2 : LayoutInv inp.steps (filteredGroupsOf inp)
        (((filteredGroupsOf inp).enumFrom 0).foldl
          (layoutFold inp.steps inp.parts inp.fasts (stepColX + inp.gap1))
          { allNodes := [], allLinks := [], swimlanes := [], curY := topPad + headerH }) := by
      simpa using h
    exact h2
  have hRid : (rootNodeOf (layoutAccOf inp) (stepColX + inp.gap1 + inp.gap2)).id
      = NodeId.root := rfl
  have hmem : ∀ gid : Option ℕ,
      memberYs ((layoutAccOf inp).allNodes
        ++ [rootNodeOf (layoutAccOf inp) (stepColX + inp.gap1 + inp.gap2)]) gid
      = memberYs (layoutAccOf inp).allNodes gid := by
    intro gid
    rw [memberYs_append]
    have hR : memberYs [rootNodeOf (layoutAccOf inp) (stepColX + inp.gap1 + inp.gap2)] gid
        = [] := rfl
    rw [hR, List.append_nil]
  have hgys : groupYsOf ((layoutAccOf inp).allNodes
        ++ [rootNodeOf (layoutAccOf inp) (stepColX + inp.gap1 + inp.gap2)])
      = groupYsOf (layoutAccOf inp).allNodes := by
    unfold groupYsOf
    rw [List.filter_append]
    have hR : ([rootNodeOf (layoutAccOf inp) (stepColX + inp.gap1 + inp.gap2)]).filter
        (fun n => n.isGroup) = [] := rfl
    rw [hR, List.append_nil]
  rw [layoutCore_nodes inp, layoutCore_swimlanes inp]
  refine ⟨?_, ?_, ?_, ?_, ?_, ?_, ?_, ?_⟩
  · intro n hn
    rcases List.mem_append.1 hn with hn | hn
    · rcases hInv.flags n hn with ⟨h1, h2, h3⟩ | ⟨h1, h2, h3⟩
      · refine ⟨fun hg => ?_, fun hr => ?_⟩
        · rw [h2] at hg
          exact absurd hg (by decide)
        · rw [h3] at hr
          exact absurd hr (by decide)
      · refine ⟨fun _ => h1, fun hr => ?_⟩
        rw [h3] at hr
        exact absurd hr (by decide)
    · rw [List.mem_singleton] at hn
      subst hn
      have hRg0 : (rootNodeOf (layoutAccOf inp) (stepColX + inp.gap1 + inp.gap2)).isGroup
          = false := rfl
      refine ⟨fun hg => ?_, fun _ => ⟨rfl, rfl⟩⟩
      rw [hRg0] at hg
      exact absurd hg (by decide)
  · rw [List.map_append, List.nodup_append]
    refine ⟨hInv.ids_nodup, by simp, ?_⟩
    intro a ha hb
    rw [List.map_singleton, hRid, List.mem_singleton] at hb
    subst hb
    rcases List.mem_map.1 ha with ⟨n, hn, hcon⟩
    rcases hInv.flags n hn with ⟨h1, -, -⟩ | ⟨-, h2, -⟩
    · obtain ⟨-, s', -, hid', -⟩ := hInv.step_chr n hn h1
      rw [hid'] at hcon
      cases hcon
    · obtain ⟨g, -, hid', -⟩ := hInv.grp_chr n hn h2
      rw [hid'] at hcon
      cases hcon
  · rw [List.filter_append]
    have hRg : ([rootNodeOf (layoutAccOf inp) (stepColX + inp.gap1 + inp.gap2)]).filter
        (fun n => n.isGroup) = [] := rfl
    rw [hRg, List.append_nil, hInv.grp_ids]
    have hmm : (filteredGroupsOf inp).map (fun g => some g.id)
        = ((filteredGroupsOf inp).map Group.id).map some := by
      rw [List.map_map]
      rfl
    rw [hmm]
    exact (filteredGroupsOf_ids_nodup inp hgnd).map (Option.some_injective ℕ)
  · rw [List.filter_append]
    have hA : (layoutAccOf inp).allNodes.filter rootPred = [] := by
      rw [List.filter_eq_nil_iff]
      intro n hn
      rcases hInv.flags n hn with ⟨-, -, h3⟩ | ⟨-, -, h3⟩ <;> simp [rootPred, h3]
    rw [hA, List.nil_append]
    simpa using List.length_filter_le rootPred
      [rootNodeOf (layoutAccOf inp) (stepColX + inp.gap1 + inp.gap2)]
  · intro n hn hgrp hne
    rcases List.mem_append.1 hn with hn | hn
    · rw [hmem n.groupId] at hne ⊢
      exact (hInv.centred n hn hgrp).1 hne
    · rw [List.mem_singleton] at hn
      subst hn
      have hRg0 : (rootNodeOf (layoutAccOf inp) (stepColX + inp.gap1 + inp.gap2)).isGroup
          = false := rfl
      rw [hRg0] at hgrp
      exact absurd hgrp (by decide)
  · intro n hn hroot hgys2
    rcases List.mem_append.1 hn with hn | hn
    · rcases hInv.flags n hn with ⟨-, -, h3⟩ | ⟨-, -, h3⟩ <;>
        · rw [h3] at hroot
          exact absurd hroot (by decide)
    · rw [List.mem_singleton] at hn
      subst hn
      rw [hgys] at hgys2 ⊢
      show (if (groupYsOf (layoutAccOf inp).allNodes).isEmpty then topPad + headerH
          else (listMin (groupYsOf (layoutAccOf inp).allNodes)
            + listMax (groupYsOf (layoutAccOf inp).allNodes)) / 2)
        = (listMin (groupYsOf (layoutAccOf inp).allNodes)
          + listMax (groupYsOf (layoutAccOf inp).allNodes)) / 2
      rw [if_neg (by rw [List.isEmpty_iff]; exact hgys2)]
  · intro n hn hstep
    rcases List.mem_append.1 hn with hn | hn
    · exact (hInv.step_chr n hn hstep).1
    · rw [List.mem_singleton] at hn
      subst hn
      have hRs0 : (rootNodeOf (layoutAccOf inp) (stepColX + inp.gap1 + inp.gap2)).isStep
          = false := rfl
      rw [hRs0] at hstep
      exact absurd hstep (by decide)
  · intro n hn hgrp hemp
    rcases List.mem_append.1 hn with hn | hn
    · rw [hmem n.groupId] at hemp
      exact (hInv.centred n hn hgrp).2 hemp
    · rw [List.mem_singleton] at hn
      subst hn
      have hRg0 : (rootNodeOf (layoutAccOf inp) (stepColX + inp.gap1 + inp.gap2)).isGroup
          = false := rfl
      rw [hRg0] at hgrp
      exact absurd hgrp (by decide)

/-! ## C3, C6, C7 -/

/-- C3: for a rendered layout, after any single drag update of a step's
y-coordinate every group node sits at (min + max)/2 of its member steps'
current y-values (whenever it has member steps), and the root node sits at
(min + max)/2 of the group nodes' current y-values; in the initial layout a
group with no member steps instead sits at the vertical center of its
swimlane band. -/
theorem C3_drag_recenters (inp : LayoutInput) (L : LayoutResult) (k : ℕ) (newY : ℚ)
    (sfl spn dirty : Bool) (pd : List Part)
    (hgnd : (inp.groups.map Group.id).Nodup)
    (hsnd : (inp.steps.map Step.id).Nodup)
    (hL : calculateTreeLayout inp = some L) :
    (AllGroupsCentered (dragStep (render L sfl spn dirty pd) k newY).nodes ∧
      RootCentered (dragStep (render L sfl spn dirty pd) k newY).nodes) ∧
    (∀ n ∈ L.nodes, n.isGroup = true → memberYs L.nodes n.groupId = [] →
      ∃ sl ∈ L.swimlanes, n.groupId = some sl.grp.id ∧ sl.stepCount = 0 ∧
        n.y = sl.startY + sl.height / 2) := by
  obtain ⟨hLc, -, -⟩ := calculateTreeLayout_some_inv inp L hL
  subst hLc
  obtain ⟨f1, f2, f3, f4, f5, f6, -, f8⟩ := layoutCore_facts inp hgnd hsnd
  exact ⟨dragStep_centered (render (layoutCore inp) sfl spn dirty pd) k newY
    f1 f2 f3 f4 f5 f6, f8⟩

lemma dragStep_map_pres {β : Type} (g : Node → β)
    (hg : ∀ (n : Node) (v : ℚ), g { n with y := v } = g n) (st : GraphState) (k : ℕ)
    (newY : ℚ) : (dragStep st k newY).nodes.map g = st.nodes.map g := by
  cases hf : st.nodes.find? (stepPred k) with
  | none =>
      have h1 : dragStep st k newY = st := by
        unfold dragStep
        rw [hf]
      rw [h1]
  | some n0 =>
      rw [dragStep_of_find st k newY n0 hf]
      show (recenterRoot (recenterGroup (updateFirst (stepPred k)
        (fun n => { n with y := newY }) st.nodes) n0.groupId)).map g = st.nodes.map g
      rw [map_recenterRoot g hg, map_recenterGroup g hg]
      exact map_updateFirst_preserve _ _ g st.nodes (fun b => hg b newY)

/-- A sequence of drag operations, applied left to right. -/
def dragsFold (st : GraphState) (ops : List (ℕ × ℚ)) : GraphState :=
  ops.foldl (fun s op => dragStep s op.1 op.2) st

lemma dragsFold_map_pres {β : Type} (g : Node → β)
    (hg : ∀ (n : Node) (v : ℚ), g { n with y := v } = g n) (ops : List (ℕ × ℚ)) :
    ∀ st : GraphState, (dragsFold st ops).nodes.map g = st.nodes.map g := by
  induction ops with
  | nil =>
      intro st
      rfl
  | cons op rest ih =>
      intro st
      show (dragsFold (dragStep st op.1 op.2) rest).nodes.map g = st.nodes.map g
      rw [ih (dragStep st op.1 op.2), dragStep_map_pres g hg]

lemma forall_mem_map_pres {α β : Type} (g : α → β) (P : β → Prop) (l1 l2 : List α)
    (h : l1.map g = l2.map g) (hp : ∀ a ∈ l2, P (g a)) : ∀ a ∈ l1, P (g a) := by
  intro a ha
  have h2 : g a ∈ l2.map g := by
    rw [← h]
    exact List.mem_map_of_mem g ha
  rcases List.mem_map.1 h2 with ⟨b, hb, hgb⟩
  rw [← hgb]
  exact hp b hb

/-- C6: column lock — every single drag leaves every node's `(isStep, x)` pair
unchanged, and after any sequence of drag operations on a rendered layout
every step node's x-coordinate still equals the fixed step-column x. -/
theorem C6_column_lock (inp : LayoutInput) (L : LayoutResult) (ops : List (ℕ × ℚ))
    (sfl spn dirty : Bool) (pd : List Part)
    (hgnd : (inp.groups.map Group.id).Nodup)
    (hsnd : (inp.steps.map Step.id).Nodup)
    (hL : calculateTreeLayout inp = some L) :
    (∀ (st : GraphState) (k : ℕ) (newY : ℚ),
      (dragStep st k newY).nodes.map (fun n => (n.isStep, n.x))
        = st.nodes.map (fun n => (n.isStep, n.x))) ∧
    ∀ n ∈ (dragsFold (render L sfl spn dirty pd) ops).nodes, n.isStep = true →
      n.x = stepColX := by
  obtain ⟨hLc, -, -⟩ := calculateTreeLayout_some_inv inp L hL
  subst hLc
  obtain ⟨-, -, -, -, -, -, f7, -⟩ := layoutCore_facts inp hgnd hsnd
  refine ⟨fun st k newY => dragStep_map_pres (fun n => (n.isStep, n.x))
    (fun n v => rfl) st k newY, ?_⟩
  have hmapeq : (dragsFold (render (layoutCore inp) sfl spn dirty pd) ops).nodes.map
      (fun n => (n.isStep, n.x)) = (layoutCore inp).nodes.map (fun n => (n.isStep, n.x)) :=
    dragsFold_map_pres (fun n => (n.isStep, n.x)) (fun n v => rfl) ops
      (render (layoutCore inp) sfl spn dirty pd)
  intro n hn hstep
  have hres := forall_mem_map_pres (fun n : Node => (n.isStep, n.x))
    (fun p => p.1 = true → p.2 = stepColX) _ _ hmapeq (fun a ha => f7 a ha) n hn
  exact hres hstep

lemma bezierPoint_snd (t sx sy tx ty : ℚ) :
    (bezierPoint t sx sy tx ty).2 = sy + (ty - sy) * (3 * t ^ 2 - 2 * t ^ 3) := by
  unfold bezierPoint
  dsimp only
  ring

/-- The label update applied by the drag handler to one rendered label
(graph.js 706–714), its endpoints found as `src` and `tgt`. -/
def relabel (src tgt : Node) (l : RenderedLabel) : RenderedLabel :=
  let t := if l.labelPos == 0 then 1/2 else l.labelPos
  let pt := bezierPoint t (src.x + src.w / 2) src.y (tgt.x - tgt.w / 2) tgt.y
  { l with
    px := pt.1
    py := pt.2
    sx := src.x + src.w / 2
    sy := src.y
    tx := tgt.x - tgt.w / 2
    ty := tgt.y }

/-- C7: after a drag, every rendered link is re-derived from the new node
table; a link's label keeps its *stored* `labelPos` parameter `t` unchanged,
its anchor is recomputed as the curve point at `t` on the new curve, and if
the target endpoint's y actually moved (the source staying put, `t` in
`(0, 1]`, and the old anchor consistent with the old endpoints), the rendered
anchor y genuinely changes. -/
theorem C7_label_anchor_stability (st : GraphState) (k : ℕ) (newY : ℚ) (n0 : Node)
    (lk : RenderedLink) (l : RenderedLabel)
    (hf : st.nodes.find? (stepPred k) = some n0)
    (hlk : lk ∈ st.links) (hl : lk.label = some l) :
    updateRenderedLink (dragStep st k newY).nodes lk ∈ (dragStep st k newY).links ∧
    (∀ src tgt, findNode (dragStep st k newY).nodes lk.srcId = some src →
      findNode (dragStep st k newY).nodes lk.tgtId = some tgt →
      (updateRenderedLink (dragStep st k newY).nodes lk).label = some (relabel src tgt l) ∧
      (relabel src tgt l).labelPos = l.labelPos ∧
      (relabel src tgt l).px = (bezierPoint (if l.labelPos == 0 then 1/2 else l.labelPos)
        (src.x + src.w / 2) src.y (tgt.x - tgt.w / 2) tgt.y).1 ∧
      (relabel src tgt l).py = (bezierPoint (if l.labelPos == 0 then 1/2 else l.labelPos)
        (src.x + src.w / 2) src.y (tgt.x - tgt.w / 2) tgt.y).2 ∧
      (l.py = (bezierPoint (if l.labelPos == 0 then 1/2 else l.labelPos)
          l.sx l.sy l.tx l.ty).2 →
        src.y = l.sy → tgt.y ≠ l.ty →
        0 < (if l.labelPos == 0 then 1/2 else l.labelPos) →
        (if l.labelPos == 0 then 1/2 else l.labelPos) ≤ 1 →
        (relabel src tgt l).py ≠ l.py)) := by
  constructor
  · rw [dragStep_of_find st k newY n0 hf]
    exact List.mem_map_of_mem _ hlk
  · intro src tgt hsrc htgt
    have hupd := updateRenderedLink_of_finds (dragStep st k newY).nodes lk src tgt hsrc htgt
    have hlab : (updateRenderedLink (dragStep st k newY).nodes lk).label
        = some (relabel src tgt l) := by
      rw [hupd]
      show lk.label.map (relabel src tgt) = some (relabel src tgt l)
      rw [hl]
      rfl
    refine ⟨hlab, rfl, rfl, rfl, ?_⟩
    intro hcons hsy hty h0 h1
    have hpy : (relabel src tgt l).py
        = (bezierPoint (if l.labelPos == 0 then 1/2 else l.labelPos)
          (src.x + src.w / 2) src.y (tgt.x - tgt.w / 2) tgt.y).2 := rfl
    set t := (if l.labelPos == 0 then (1:ℚ)/2 else l.labelPos) with ht
    rw [hpy, hcons, bezierPoint_snd, bezierPoint_snd, hsy]
    intro heq
    apply hty
    have hw : 0 < 3 * t ^ 2 - 2 * t ^ 3 := by
      nlinarith [mul_pos (mul_pos h0 h0) (show (0:ℚ) < 3 - 2 * t by linarith)]
    have h2 : (tgt.y - l.sy) * (3 * t ^ 2 - 2 * t ^ 3)
        = (l.ty - l.sy) * (3 * t ^ 2 - 2 * t ^ 3) := by linarith
    have h3 := mul_right_cancel₀ (ne_of_gt hw) h2
    linarith

/-! ## Concrete fixtures -/

def demoGroups : List Group := [⟨1, some 1, "A"⟩, ⟨2, some 2, "B"⟩]

def demoSteps : List Step :=
  [⟨1, 1, some 1, "s1", none, none, none⟩,
   ⟨2, 1, some 2, "s2", none, none, none⟩,
   ⟨3, 2, some 1, "s3", none, none, none⟩]

def demoInp : LayoutInput :=
  { groups := demoGroups
    steps := demoSteps
    parts := []
    fasts := []
    visibleGroupIds := none
    gap1 := 300
    gap2 := 240 }

def demoS1 : Node :=
  { id := .step 1
    dbId := some 1
    x := 220
    y := 100
    w := 150
    h := 38
    groupId := some 7
    isStep := true
    isGroup := false
    isRoot := false
    swimIdx := 0 }

def demoS2 : Node :=
  { id := .step 2
    dbId := some 2
    x := 220
    y := 100
    w := 150
    h := 38
    groupId := some 7
    isStep := true
    isGroup := false
    isRoot := false
    swimIdx := 0 }

def demoG7 : Node :=
  { id := .group 7
    dbId := none
    x := 520
    y := 100
    w := 170
    h := 46
    groupId := some 7
    isStep := false
    isGroup := true
    isRoot := false
    swimIdx := 0 }

/-- `demoG7` after the group recentring caused by dragging step 1 to y = 300:
its `y` becomes (100 + 300)/2 = 200. -/
def demoG7Moved : Node :=
  { id := .group 7
    dbId := none
    x := 520
    y := 200
    w := 170
    h := 46
    groupId := some 7
    isStep := false
    isGroup := true
    isRoot := false
    swimIdx := 0 }

def demoLabel : RenderedLabel :=
  { stepDbId := some 2
    labelPos := 3/10
    sx := 295
    sy := 100
    tx := 435
    ty := 100
    px := 0
    py := 100 }

def demoRLink : RenderedLink :=
  { srcId := .step 2
    tgtId := .group 7
    psx := 295
    psy := 100
    ptx := 435
    pty := 100
    label := some demoLabel }

def demoSt : GraphState :=
  { nodes := [demoS1, demoS2, demoG7]
    links := [demoRLink]
    partHexes := []
    partLinks := []
    positions := []
    layoutDirty := false
    showPartNodes := false
    partsData := [] }

theorem C2_witness :
    (layoutCore demoInp).sortedGroups.Pairwise (fun a b => groupKey a ≤ groupKey b) ∧
    (layoutCore demoInp).swimlanes.map Swimlane.grp = (layoutCore demoInp).sortedGroups ∧
    (layoutCore demoInp).swimlanes.Pairwise (fun a b => a.startY < b.startY) := by
  obtain ⟨h1, -, -, h4, h5⟩ := C2_group_order_amended demoInp (layoutCore demoInp)
    (by with_unfolding_all decide)
  exact ⟨h1, h4, h5⟩

theorem C3_witness :
    AllGroupsCentered (dragStep (render (layoutCore demoInp) true true false []) 1 500).nodes ∧
    RootCentered (dragStep (render (layoutCore demoInp) true true false []) 1 500).nodes :=
  (C3_drag_recenters demoInp (layoutCore demoInp) 1 500 true true false []
    (by decide) (by decide) (by with_unfolding_all decide)).1

theorem C4_witness :
    dragStep (dragStep demoSt 1 300) 1 300 = dragStep demoSt 1 300 :=
  C4_dragStep_idempotent demoSt 1 300 (by
    unfold FlagsExclusive
    with_unfolding_all decide)

theorem C6_witness :
    (dragStep (render (layoutCore demoInp) true true false []) 1 500).nodes.map
        (fun n => (n.isStep, n.x))
      = (render (layoutCore demoInp) true true false []).nodes.map
        (fun n => (n.isStep, n.x)) :=
  (C6_column_lock demoInp (layoutCore demoInp) [] true true false []
    (by decide) (by decide) (by with_unfolding_all decide)).1
    (render (layoutCore demoInp) true true false []) 1 500

theorem C7_witness :
    updateRenderedLink (dragStep demoSt 1 300).nodes demoRLink
      ∈ (dragStep demoSt 1 300).links ∧
    (relabel demoS2 demoG7Moved demoLabel).labelPos = demoLabel.labelPos ∧
    (updateRenderedLink (dragStep demoSt 1 300).nodes demoRLink).label
      = some (relabel demoS2 demoG7Moved demoLabel) ∧
    (relabel demoS2 demoG7Moved demoLabel).py ≠ demoLabel.py := by
  obtain ⟨hmem, h2⟩ := C7_label_anchor_stability demoSt 1 300 demoS1 demoRLink demoLabel
    (by with_unfolding_all decide) (by with_unfolding_all decide) rfl
  obtain ⟨ha, hb, -, -, he⟩ := h2 demoS2 demoG7Moved
    (by with_unfolding_all decide) (by with_unfolding_all decide)
  refine ⟨hmem, hb, ha, he ?_ ?_ ?_ ?_ ?_⟩
  · with_unfolding_all decide
  · rfl
  · with_unfolding_all decide
  · with_unfolding_all decide
  · with_unfolding_all decide

theorem C9_witness :
    autoGenerateLinks 5 demoGroups demoSteps [⟨5, 1, 2⟩] = [] ∧
    ((autoGenerateLinks 5 demoGroups demoSteps []).map linkPair).Nodup ∧
    ((1, 2) ∈ (autoGenerateLinks 5 demoGroups demoSteps []).map linkPair
      ↔ ChainOrBridgePair demoGroups demoSteps 1 2) := by
  refine ⟨(C9_autoGenerateLinks_exact 5 demoGroups demoSteps [⟨5, 1, 2⟩]).1 (by simp),
    (C9_autoGenerateLinks_exact 5 demoGroups demoSteps []).2.1, ?_⟩
  exact ((C9_autoGenerateLinks_exact 5 demoGroups demoSteps []).2.2 rfl).2 1 2

end EagleEye
